import Mathlib

/-!
Verification development for the Schulmanager Online Home Assistant
integration. The definitions below are a shallow embedding of the Python
modules `custom_components/schulmanager_online/free_hours_utils.py`,
`coordinator.py` and `calendar.py`. Python dictionaries produced by
`_process_lesson` / `create_free_hour_lesson` are modelled as the `Lesson`
structure; dictionary values that may be `None` are modelled with `Option`;
machine-level details (Python `int` is unbounded, as is Lean `Int`/`Nat`)
carry over directly. Functions that can raise exceptions are modelled with
`Except String`.
-/

set_option maxRecDepth 4000

namespace SMO

/-! ## Calendar dates

Python `datetime.date` objects are modelled as the number of days since
1970-01-01 (a `Nat`).  `dateStr` mirrors `date.isoformat()`, and
`weekdayName` mirrors `date.strftime("%A")` (1970-01-01 was a Thursday).
The civil-from-days conversion follows the standard Gregorian algorithm.
-/

/-- Gregorian (year, month, day) of a day count since 1970-01-01. -/
def civilFromDays (n : Nat) : Nat × Nat × Nat :=
  let z := n + 719468
  let era := z / 146097
  let doe := z % 146097
  let yoe := (doe - doe / 1460 + doe / 36524 - doe / 146097) / 365
  let y := yoe + era * 400
  let doy := doe - (365 * yoe + yoe / 4 - yoe / 100)
  let mp := (5 * doy + 2) / 153
  let d := doy - (153 * mp + 2) / 5 + 1
  let m := if mp < 10 then mp + 3 else mp - 9
  (if m ≤ 2 then y + 1 else y, m, d)

/-- Zero-pad a number to two digits, like Python's `f"{n:02d}"`. -/
def pad2 (n : Nat) : String :=
  if n < 10 then "0" ++ toString n else toString n

/-- Zero-pad a number to four digits. -/
def pad4 (n : Nat) : String :=
  if n < 10 then "000" ++ toString n
  else if n < 100 then "00" ++ toString n
  else if n < 1000 then "0" ++ toString n
  else toString n

/-- `date.isoformat()` for a day count since the epoch. -/
def dateStr (n : Nat) : String :=
  match civilFromDays n with
  | (y, m, d) => pad4 y ++ "-" ++ pad2 m ++ "-" ++ pad2 d

/-- `date.strftime("%A")`: English weekday name. Day 0 (1970-01-01) was a
Thursday. -/
def weekdayName (n : Nat) : String :=
  match n % 7 with
  | 0 => "Thursday"
  | 1 => "Friday"
  | 2 => "Saturday"
  | 3 => "Sunday"
  | 4 => "Monday"
  | 5 => "Tuesday"
  | _ => "Wednesday"

/-- The weekend test used by `add_free_hours_to_schedule`
(`weekday in ["Saturday", "Sunday"]`). -/
def isWeekend (n : Nat) : Bool :=
  weekdayName n == "Saturday" || weekdayName n == "Sunday"

/-- The days visited by `while current_date <= end_date`, in order. -/
def daysRange (start_date end_date : Nat) : List Nat :=
  (List.range (end_date + 1 - start_date)).map (start_date + ·)

theorem dateStr_20339 : dateStr 20339 = "2025-09-08" := by decide
theorem weekday_20339 : weekdayName 20339 = "Monday" := by decide

/-! ## The lesson record

Model of the dictionaries produced by `coordinator._process_lesson` and
`free_hours_utils.create_free_hour_lesson`.  String-valued keys whose value
may be Python `None` (`date` is never `None` in the record itself but may
be absent upstream and is then modelled as `""`; `start_time` / `end_time`
come from `classHour.get(...)` and may be `None`) use `Option String`.
`class_hour_number` is `None` or an `int` after `_process_lesson`, hence
`Option Int`.  Keys absent from a particular record (e.g. the
`teacher_*` convenience keys of a lesson without teachers) are modelled by
the empty-string / `false` / `none` defaults that every consumer in the
source recovers via `.get`. -/

structure Teacher where
  name : String
  firstname : String
  lastname : String
  abbreviation : String
deriving DecidableEq

structure Lesson where
  id : Option String
  date : String
  class_hour_number : Option Int
  start_time : Option String
  end_time : Option String
  subject : String
  subject_name : String
  subject_abbreviation : String
  room : String
  teacher : String
  teacher_abbreviation : String
  teacher_firstname : String
  teacher_lastname : String
  teachers : List Teacher
  «type» : String
  is_substitution : Bool
  comment : String
  is_cancelled : Bool
  is_free_hour : Bool
  original_teacher : Option String
deriving DecidableEq

/-! ## free_hours_utils.py -/

/-- `create_free_hour_lesson(date_str, period_num, start_time, end_time)`. -/
def create_free_hour_lesson (date_str : String) (period_num : Int)
    (start_time end_time : String) : Lesson :=
  { id := some ("free_" ++ date_str ++ "_" ++ toString period_num)
    date := date_str
    class_hour_number := some period_num
    start_time := some start_time
    end_time := some end_time
    subject := ""
    subject_name := ""
    subject_abbreviation := ""
    room := ""
    teacher := ""
    teacher_abbreviation := ""
    teacher_firstname := ""
    teacher_lastname := ""
    teachers := []
    «type» := "freeHour"
    is_substitution := false
    comment := ""
    is_cancelled := false
    is_free_hour := true
    original_teacher := none }

/-- One entry of the class-hours table fetched from the API.
`number` is `some n` when the raw value converts to the integer `n` via
Python `int(...)` (a missing key defaults to `0`, hence `some 0`), and
`none` when the conversion raises.  `from`/`until` are `none` when the key
is missing (the source then substitutes the `08:00:00`/`08:45:00`
defaults at each use site). -/
structure ClassHour where
  number : Option Int
  «from» : Option String
  «until» : Option String
deriving DecidableEq

/-- The `available_periods` set built by
`get_available_periods_from_class_hours`: all `number` values that parse
as an `int` in `1..12`, without duplicates (Python uses a `set`). -/
def available_periods : List ClassHour → List Int
  | [] => []
  | ch :: rest =>
    let tail := available_periods rest
    match ch.number with
    | some n => if 1 ≤ n ∧ n ≤ 12 ∧ n ∉ tail then n :: tail else tail
    | none => tail

/-- The `period_times` dictionary built by
`get_available_periods_from_class_hours`, looked up with the
`period_times.get(period_num, ("08:00:00", "08:45:00"))` default.
Python dict assignment lets the last table entry for a number win. -/
def period_times_lookup (class_hours : List ClassHour) (p : Int) :
    String × String :=
  let hits := class_hours.filterMap fun ch =>
    match ch.number with
    | some n =>
        if n = p ∧ 1 ≤ n ∧ n ≤ 12 then
          some (ch.«from».getD "08:00:00", ch.«until».getD "08:45:00")
        else none
    | none => none
  hits.getLast?.getD ("08:00:00", "08:45:00")

/-- `get_occupied_periods_for_date(lessons, date_str)`: the period numbers
of the lessons on `date_str` (Python returns a set; only membership is
ever used, so a list with possible duplicates is an adequate model). -/
def get_occupied_periods_for_date (lessons : List Lesson)
    (date_str : String) : List Int :=
  lessons.filterMap fun l =>
    if l.date = date_str then l.class_hour_number else none

/-- The synthetic free-hour entries generated for one date: one per
available period that is not occupied. -/
def freeHoursForDay (avail : List Int) (pt : Int → String × String)
    (occ : List Int) (date_str : String) : List Lesson :=
  (avail.filter (fun p => p ∉ occ)).map fun p =>
    create_free_hour_lesson date_str p (pt p).1 (pt p).2

/-- The block of entries `add_free_hours_to_schedule` appends for one day
of the range: nothing on weekends, otherwise that date's input lessons
followed by the synthesized free hours. -/
def processDay (lessons : List Lesson) (avail : List Int)
    (pt : Int → String × String) (d : Nat) : List Lesson :=
  if isWeekend d then []
  else
    let ds := dateStr d
    let date_lessons := lessons.filter (fun l => l.date = ds)
    date_lessons ++
      freeHoursForDay avail pt
        (get_occupied_periods_for_date date_lessons ds) ds

/-- Code-point comparison of character lists (Python compares strings
lexicographically by code point, as does `String.lt`). -/
def charsLt : List Char → List Char → Bool
  | [], [] => false
  | [], _ :: _ => true
  | _ :: _, [] => false
  | a :: as, b :: bs =>
      if a.toNat < b.toNat then true
      else if a.toNat = b.toNat then charsLt as bs
      else false

/-- Python `a < b` on strings. -/
def strLt (a b : String) : Bool := charsLt a.data b.data

/-- Python `a <= b` on strings. -/
def strLE (a b : String) : Bool := strLt a b || a == b

/-- Python's whitespace set for `str.strip()`. -/
def pyWhitespace (c : Char) : Bool :=
  c == ' ' || c == '\t' || c == '\n' || c == '\r' ||
    c.toNat == 11 || c.toNat == 12

/-- `str.strip()` on a character list. -/
def pyStripChars (cs : List Char) : List Char :=
  ((cs.dropWhile pyWhitespace).reverse.dropWhile pyWhitespace).reverse

/-- Python `s.strip()`. -/
def pyStrip (s : String) : String := String.mk (pyStripChars s.data)

/-- The numeric value of a decimal digit character. -/
def digitVal (c : Char) : Option Nat :=
  if 48 ≤ c.toNat ∧ c.toNat ≤ 57 then some (c.toNat - 48) else none

/-- Parse a non-empty all-digit character list as a natural number. -/
def digitsToNat (cs : List Char) : Option Nat :=
  match cs with
  | [] => none
  | _ =>
      cs.foldl
        (fun acc c =>
          match acc, digitVal c with
          | some a, some d => some (a * 10 + d)
          | _, _ => none)
        (some 0)

/-- Python `s.split(sep)` for a single-character separator, on character
lists. -/
def splitChars (sep : Char) : List Char → List (List Char)
  | [] => [[]]
  | ch :: rest =>
      let r := splitChars sep rest
      if ch == sep then [] :: r
      else
        match r with
        | [] => [[ch]]
        | g :: gs => (ch :: g) :: gs

/-- Python `s.split(sep)`. -/
def pySplit (sep : Char) (s : String) : List String :=
  (splitChars sep s.data).map String.mk

/-- Stable insertion for `pysort`: `x` is placed before the first element
it compares `≤` to, so equal keys keep their original order. -/
def insertLE {α : Type} (le : α → α → Bool) (x : α) : List α → List α
  | [] => [x]
  | y :: ys => if le x y then x :: y :: ys else y :: insertLE le x ys

/-- Stable sort by a total boolean comparison.  Python's `list.sort` is
stable, and for a total preorder every stable sort produces the same
list, so this models `list.sort(key=...)` exactly. -/
def pysort {α : Type} (le : α → α → Bool) : List α → List α
  | [] => []
  | x :: xs => insertLE le x (pysort le xs)

theorem insertLE_perm {α : Type} (le : α → α → Bool) (x : α)
    (l : List α) : (insertLE le x l).Perm (x :: l) := by
  induction l with
  | nil => rfl
  | cons y ys ih =>
      unfold insertLE
      split
      · rfl
      · exact ((ih.cons y).trans (List.Perm.swap x y ys))

theorem pysort_perm {α : Type} (le : α → α → Bool) (l : List α) :
    (pysort le l).Perm l := by
  induction l with
  | nil => rfl
  | cons x xs ih => exact (insertLE_perm le x (pysort le xs)).trans (ih.cons x)

/-- Sort key of the final `all_lessons_with_free.sort`: Python compares
`(date, int(class_hour_number))` tuples. -/
def finalSortLE (a b : Lesson) : Bool :=
  strLt a.date b.date ||
    (a.date == b.date &&
      a.class_hour_number.getD 0 ≤ b.class_hour_number.getD 0)

/-- The final `sort(key=lambda x: (x.get("date", ""),
int(x.get("class_hour_number", 0))))`.  CPython evaluates the key function
for every element before comparing, and `int(None)` raises `TypeError`,
so the call raises whenever any element carries `class_hour_number =
None`; otherwise it sorts stably by `(date, class_hour_number)`. -/
def pysortFreeHours (ls : List Lesson) : Except String (List Lesson) :=
  if ls.all (fun l => l.class_hour_number.isSome) then
    .ok (pysort finalSortLE ls)
  else
    .error "TypeError: int() argument must not be NoneType"

/-- `add_free_hours_to_schedule(processed_lessons, class_hours,
start_date, end_date)`. -/
def add_free_hours_to_schedule (processed_lessons : List Lesson)
    (class_hours : List ClassHour) (start_date end_date : Nat) :
    Except String (List Lesson) :=
  let avail := available_periods class_hours
  if avail = [] then .ok processed_lessons
  else
    pysortFreeHours
      ((daysRange start_date end_date).flatMap
        (processDay processed_lessons avail (period_times_lookup class_hours)))

/-! ## coordinator.py — change detection

`_detect_changes` keys both schedules by the f-string
`f"{lesson['date']}_{lesson['class_hour_number']}"`; Python renders `None`
as `"None"` and an int by its decimal form.  The lookup dictionaries are
modelled as association lists built with in-place replacement, which is
exactly CPython's dict insertion behaviour (first insertion fixes the
position, later assignments overwrite the value). -/

/-- A Python value appearing in a lesson field comparison: a string,
`None`, or a bool. -/
inductive PyVal where
  | vstr : String → PyVal
  | vnone : PyVal
  | vbool : Bool → PyVal
deriving DecidableEq

/-- `lesson.get(field)` for the non-teacher fields of `fields_to_check`. -/
def getField (l : Lesson) (f : String) : PyVal :=
  if f = "subject" then .vstr l.subject
  else if f = "room" then .vstr l.room
  else if f = "start_time" then
    match l.start_time with | some s => .vstr s | none => .vnone
  else if f = "end_time" then
    match l.end_time with | some s => .vstr s | none => .vnone
  else if f = "is_substitution" then .vbool l.is_substitution
  else if f = "type" then .vstr l.«type»
  else if f = "comment" then .vstr l.comment
  else .vnone

/-- One entry of a `field_changes` list. -/
structure FieldChange where
  field : String
  display_name : String
  previous : PyVal
  current : PyVal
deriving DecidableEq

/-- The `fields_to_check` table of `_compare_lessons`. -/
def fields_to_check : List (String × String) :=
  [("subject", "Subject"), ("room", "Room"), ("start_time", "Start time"),
   ("end_time", "End time"), ("teachers", "Teachers"),
   ("is_substitution", "Substitution status"), ("type", "Lesson type"),
   ("comment", "Comment")]

/-- `", ".join(abbreviations)`. -/
def teacherJoin (ts : List Teacher) : String :=
  String.intercalate ", " (ts.map (·.abbreviation))

/-- One iteration of the `for field, display_name in fields_to_check`
loop of `_compare_lessons`: teachers are compared as the ordered list of
abbreviations and recorded as the joined strings; every other field is
compared by `!=` on its value. -/
def fieldDiff (previous current : Lesson) (fd : String × String) :
    Option FieldChange :=
  if fd.1 = "teachers" then
    let pa := previous.teachers.map (·.abbreviation)
    let ca := current.teachers.map (·.abbreviation)
    if pa ≠ ca then
      some ⟨fd.1, fd.2, .vstr (String.intercalate ", " pa),
            .vstr (String.intercalate ", " ca)⟩
    else none
  else
    let pv := getField previous fd.1
    let cv := getField current fd.1
    if pv ≠ cv then some ⟨fd.1, fd.2, pv, cv⟩ else none

/-- The `changes_found` list accumulated by `_compare_lessons`. -/
def changesFound (previous current : Lesson) : List FieldChange :=
  fields_to_check.filterMap (fieldDiff previous current)

/-- A change record produced by `_detect_changes` / `_compare_lessons`.
The `added`/`removed` records carry no `field_changes` key, modelled as
`[]`. -/
structure ChangeRecord where
  «type» : String
  date : String
  class_hour : Option Int
  current : Option Lesson
  previous : Option Lesson
  field_changes : List FieldChange
  description : String
deriving DecidableEq

/-- `f"{date}_{class_hour_number}"`, Python's rendering of the key. -/
def lessonKey (l : Lesson) : String :=
  l.date ++ "_" ++
    (match l.class_hour_number with
     | some n => toString n
     | none => "None")

/-- The key string a record occupies (its date and class hour rendered the
same way as `lessonKey`). -/
def recordKey (r : ChangeRecord) : String :=
  r.date ++ "_" ++
    (match r.class_hour with
     | some n => toString n
     | none => "None")

/-- `_compare_lessons(previous, current)`. -/
def _compare_lessons (previous current : Lesson) :
    Option ChangeRecord :=
  let cf := changesFound previous current
  if cf = [] then none
  else
    some
      { «type» := "modified"
        date := current.date
        class_hour := current.class_hour_number
        current := some current
        previous := some previous
        field_changes := cf
        description :=
          "Changes in " ++ current.subject ++ ": " ++
            String.intercalate ", " (cf.map (·.display_name)) }

/-- The `"added"` record built for a lesson missing from the previous
snapshot. -/
def addedRecord (c : Lesson) : ChangeRecord :=
  { «type» := "added"
    date := c.date
    class_hour := c.class_hour_number
    current := some c
    previous := none
    field_changes := []
    description := "New lesson added: " ++ c.subject }

/-- The `"removed"` record built for a lesson missing from the current
snapshot. -/
def removedRecord (p : Lesson) : ChangeRecord :=
  { «type» := "removed"
    date := p.date
    class_hour := p.class_hour_number
    current := none
    previous := some p
    field_changes := []
    description := "Lesson removed: " ++ p.subject }

/-- CPython dict assignment `m[k] = v`: replace in place or append. -/
def insertKV (m : List (String × Lesson)) (k : String) (v : Lesson) :
    List (String × Lesson) :=
  match m with
  | [] => [(k, v)]
  | (k', v') :: rest =>
      if k' = k then (k', v) :: rest else (k', v') :: insertKV rest k v

/-- The `previous_lookup` / `current_lookup` dictionaries. -/
def buildLookup (ls : List Lesson) : List (String × Lesson) :=
  ls.foldl (fun m l => insertKV m (lessonKey l) l) []

/-- Dictionary lookup (`m[k]` / `k in m`). -/
def lookupA (m : List (String × Lesson)) (k : String) : Option Lesson :=
  match m with
  | [] => none
  | (k', v) :: rest => if k' = k then some v else lookupA rest k

/-- The change list built by `_detect_changes` once both lookups exist:
one pass over `current_lookup` (modified / added), then one pass over
`previous_lookup` (removed). -/
def detectChangesCore (previous_schedule current_schedule : List Lesson) :
    List ChangeRecord :=
  let pl := buildLookup previous_schedule
  let cl := buildLookup current_schedule
  (cl.filterMap fun kv =>
    match lookupA pl kv.1 with
    | some p => _compare_lessons p kv.2
    | none => some (addedRecord kv.2)) ++
  (pl.filterMap fun kv =>
    match lookupA cl kv.1 with
    | some _ => none
    | none => some (removedRecord kv.2))

/-- The dictionary returned by `_detect_changes`.  On the first cycle the
source returns a dict without a `change_count` key (`change_count :=
none`). -/
structure DetectResult where
  has_changes : Bool
  changes : List ChangeRecord
  change_count : Option Nat
deriving DecidableEq

/-- `self.previous_data`: maps a student id to the stored previous
schedule (the source checks `student_id not in self.previous_data or
"schedule" not in ...`; both failures behave identically, modelled as a
missing entry). -/
def PrevStore := List (Int × List Lesson)

/-- Store lookup. -/
def storeLookup (st : List (Int × List Lesson)) (sid : Int) :
    Option (List Lesson) :=
  match st with
  | [] => none
  | (k, v) :: rest => if k = sid then some v else storeLookup rest sid

/-- `_detect_changes(student_id, current_schedule)`. -/
def _detect_changes (previous_data : List (Int × List Lesson))
    (student_id : Int) (current_schedule : List Lesson) : DetectResult :=
  match storeLookup previous_data student_id with
  | none => ⟨false, [], none⟩
  | some prev =>
      let changes := detectChangesCore prev current_schedule
      ⟨!changes.isEmpty, changes, some changes.length⟩

/-- One refresh cycle's change-detection step, as the source performs it:
`_async_update_data` calls `_detect_changes` for every student and — this
is the decisive fact — never writes to `self.previous_data`, so the store
leaves the cycle exactly as it entered it. -/
def runCycle (previous_data : List (Int × List Lesson))
    (schedules : List (Int × List Lesson)) :
    List (Int × List Lesson) × List (Int × DetectResult) :=
  (previous_data,
   schedules.map fun sc => (sc.1, _detect_changes previous_data sc.1 sc.2))

/-- Iterated refresh cycles threading the coordinator state. -/
def runCycles (previous_data : List (Int × List Lesson)) :
    List (List (Int × List Lesson)) → List (List (Int × DetectResult))
  | [] => []
  | c :: cs =>
      let out := runCycle previous_data c
      out.2 :: runCycles out.1 cs

/-! ## coordinator.py — homework/grade novelty tracking -/

/-- Python `a or b` on strings (empty string is falsy). -/
def pyOr (a b : String) : String := if a = "" then b else a

/-- A homework item; each field models `item.get(...)` with missing/`None`
collapsed to `""` (the source immediately passes the values through
`str(... or "")`). -/
structure HomeworkItem where
  date : String
  subject : String
  homework : String
  description : String
deriving DecidableEq

/-- The `subject` value of a grade item: a dict (with optional `id`,
`abbreviation`, `name`, rendered as strings) or a plain value rendered by
`str`. -/
inductive GSubject where
  | gdict : Option String → Option String → Option String → GSubject
  | gstr : String → GSubject
deriving DecidableEq

/-- A grade item (`value`, `date`, `enteredAt` modelled as the
already-`str`-rendered values, `""` for missing/`None`). -/
structure GradeItem where
  subject : Option GSubject
  value : String
  date : String
  enteredAt : String
deriving DecidableEq

/-- `_homework_key(student_id, item)`. -/
def _homework_key (student_id : Int) (item : HomeworkItem) :
    Option String :=
  let date := pyStrip item.date
  let subject := pyStrip item.subject
  let homework := pyStrip (pyOr item.homework item.description)
  if date = "" ∨ (subject = "" ∧ homework = "") then none
  else some (toString student_id ++ "_" ++ date ++ "_" ++ subject ++ "_"
    ++ homework)

/-- `_grade_key(student_id, grade)`.  `grade.get("subject") or {}` makes a
missing subject behave like an empty dict whose lookups all fail. -/
def _grade_key (student_id : Int) (grade : GradeItem) : Option String :=
  let subject_id :=
    match grade.subject with
    | none => ""
    | some (.gdict i a n) => pyOr (i.getD "") (pyOr (a.getD "") (n.getD ""))
    | some (.gstr s) => s
  let value := pyStrip grade.value
  let date := pyStrip (pyOr grade.date grade.enteredAt)
  if subject_id = "" ∨ value = "" then none
  else some (toString student_id ++ "_" ++ subject_id ++ "_" ++ value ++
    "_" ++ date)

/-- One student's homework/grade payload inside `data["students"]`. -/
structure StudentPayload where
  homeworks : List HomeworkItem
  grades : List GradeItem
deriving DecidableEq

/-- `set.add`: the seen sets are Python sets of key strings. -/
def setAdd (s : List String) (k : String) : List String :=
  if k ∈ s then s else s ++ [k]

/-- Seed loop over one key list: add every non-`None` key. -/
def seedKeys (seen : List String) (ks : List (Option String)) :
    List String :=
  ks.foldl (fun s k => match k with | some key => setAdd s key | none => s)
    seen

/-- `_seed_seen_sets(data)`: populate both seen sets without emitting. -/
def _seed_seen_sets (students : List (Int × StudentPayload))
    (seenH seenG : List String) : List String × List String :=
  students.foldl
    (fun st sp =>
      (seedKeys st.1 (sp.2.homeworks.map (_homework_key sp.1)),
       seedKeys st.2 (sp.2.grades.map (_grade_key sp.1))))
    (seenH, seenG)

/-- An emitted Home Assistant event (name and the item key that caused
it; the full payload adds nothing the claims need). -/
structure FiredEvent where
  name : String
  student_id : Int
  key : String
deriving DecidableEq

/-- The detection loop over one key list: fire for every non-`None` key
not yet seen, adding it to the seen set as it goes. -/
def fireKeys (eventName : String) (student_id : Int) (seen : List String)
    (ks : List (Option String)) : List String × List FiredEvent :=
  ks.foldl
    (fun st k =>
      match k with
      | none => st
      | some key =>
          if key ∈ st.1 then st
          else (setAdd st.1 key, st.2 ++ [⟨eventName, student_id, key⟩]))
    (seen, [])

/-- `_detect_and_fire_events(data)`: the homework pass over all students,
then the grade pass. -/
def _detect_and_fire_events (students : List (Int × StudentPayload))
    (seenH seenG : List String) :
    (List String × List String) × List FiredEvent :=
  let hw := students.foldl
    (fun st sp =>
      let r := fireKeys "schulmanager_homework_new" sp.1 st.1
        (sp.2.homeworks.map (_homework_key sp.1))
      (r.1, st.2 ++ r.2))
    (seenH, [])
  let gr := students.foldl
    (fun st sp =>
      let r := fireKeys "schulmanager_grade_new" sp.1 st.1
        (sp.2.grades.map (_grade_key sp.1))
      (r.1, st.2 ++ r.2))
    (seenG, [])
  ((hw.1, gr.1), hw.2 ++ gr.2)

/-! ## coordinator.py — datetime parsing and current/next lesson

`datetime.strptime(f"{date} {time}", "%Y-%m-%d %H:%M:%S")` is modelled by
`strptimeDateTime`, producing seconds since the epoch (as `Int`, matching
the totally ordered `datetime` values).  `%Y`/`%m`/`%d`/`%H`/`%M`/`%S`
accept 1–4 (year) or 1–2 digit groups and validate calendar ranges. -/

/-- Parse a 1–2 digit decimal group. -/
def parse2 (s : String) : Option Nat :=
  if 1 ≤ s.data.length ∧ s.data.length ≤ 2 then digitsToNat s.data
  else none

/-- Parse a 1–4 digit decimal group (`%Y`). -/
def parse4 (s : String) : Option Nat :=
  if 1 ≤ s.data.length ∧ s.data.length ≤ 4 then digitsToNat s.data
  else none

/-- Gregorian leap-year test. -/
def isLeap (y : Nat) : Bool :=
  y % 4 == 0 && (y % 100 != 0 || y % 400 == 0)

/-- Days in a month. -/
def daysInMonth (y m : Nat) : Nat :=
  if m = 2 then (if isLeap y then 29 else 28)
  else if m = 4 ∨ m = 6 ∨ m = 9 ∨ m = 11 then 30
  else 31

/-- Days since 1970-01-01 of a civil date (may be negative). -/
def daysFromCivil (y m d : Int) : Int :=
  let y2 := if m ≤ 2 then y - 1 else y
  let era := (if 0 ≤ y2 then y2 else y2 - 399) / 400
  let yoe := y2 - era * 400
  let mp := (m + 9) % 12
  let doy := (153 * mp + 2) / 5 + d - 1
  let doe := yoe * 365 + yoe / 4 - yoe / 100 + doy
  era * 146097 + doe - 719468

/-- `datetime.strptime(f"{date_s} {time_s}", "%Y-%m-%d %H:%M:%S")`,
reduced to seconds since the epoch; `none` models `ValueError`. -/
def strptimeDateTime (date_s time_s : String) : Option Int :=
  match pySplit '-' date_s, pySplit ':' time_s with
  | [ys, ms, ds], [hs, mins, ss] =>
      match parse4 ys, parse2 ms, parse2 ds, parse2 hs, parse2 mins,
          parse2 ss with
      | some y, some mo, some d, some h, some mi, some s =>
          if 1 ≤ mo ∧ mo ≤ 12 ∧ 1 ≤ d ∧ d ≤ daysInMonth y mo ∧ h ≤ 23 ∧
              mi ≤ 59 ∧ s ≤ 59 then
            some (daysFromCivil (Int.ofNat y) (Int.ofNat mo) (Int.ofNat d)
              * 86400 + (Int.ofNat h) * 3600 + (Int.ofNat mi) * 60 +
              Int.ofNat s)
          else none
      | _, _, _, _, _, _ => none
  | _, _ => none

/-- `_parse_lesson_datetime(lesson)`: `None` when `date`/`start_time` is
falsy or the parse raises. -/
def _parse_lesson_datetime (l : Lesson) : Option Int :=
  match l.start_time with
  | none => none
  | some t =>
      if l.date = "" ∨ t = "" then none else strptimeDateTime l.date t

/-- `_parse_lesson_end_datetime(lesson)`. -/
def _parse_lesson_end_datetime (l : Lesson) : Option Int :=
  match l.end_time with
  | none => none
  | some t =>
      if l.date = "" ∨ t = "" then none else strptimeDateTime l.date t

/-- `_get_current_lesson(lessons)`: the first lesson whose parsed start
and end satisfy `lesson_start <= now <= lesson_end` (both comparisons
inclusive in the source). -/
def _get_current_lesson (lessons : List Lesson) (now : Int) :
    Option Lesson :=
  lessons.find? fun l =>
    match _parse_lesson_datetime l, _parse_lesson_end_datetime l with
    | some s, some e => decide (s ≤ now) && decide (now ≤ e)
    | _, _ => false

/-- `_get_next_lesson(lessons)`: the first lesson whose parsed start is
strictly after `now`. -/
def _get_next_lesson (lessons : List Lesson) (now : Int) : Option Lesson :=
  lessons.find? fun l =>
    match _parse_lesson_datetime l with
    | some s => decide (now < s)
    | none => false

/-! ## Python `int(...)` on strings and truthiness helpers -/

/-- Python `int(s)` for a string: optional surrounding whitespace and one
sign, then decimal digits; `none` models `ValueError`. -/
def pyIntOfString (s : String) : Option Int :=
  match pyStripChars s.data with
  | '-' :: rest => (digitsToNat rest).map (fun n => -(n : Int))
  | '+' :: rest => (digitsToNat rest).map (fun n => (n : Int))
  | cs => (digitsToNat cs).map (fun n => (n : Int))

/-- Python truthiness of an int-or-`None` value (`0` and `None` are
falsy). -/
def truthyNum : Option Int → Bool
  | none => false
  | some n => n != 0

/-- Python truthiness of a string-or-`None` value (`""` and `None` are
falsy). -/
def truthyStr : Option String → Bool
  | none => false
  | some s => s != ""

/-! ## calendar.py — configurable class times -/

/-- The `DEFAULT_CLASS_TIMES` table of calendar.py. -/
def DEFAULT_CLASS_TIMES : List (String × (String × String)) :=
  [("1", ("08:00", "08:45")), ("2", ("08:50", "09:35")),
   ("3", ("09:55", "10:40")), ("4", ("10:45", "11:30")),
   ("5", ("11:40", "12:25")), ("6", ("12:30", "13:15")),
   ("7", ("13:20", "14:05")), ("8", ("14:10", "14:55")),
   ("9", ("15:00", "15:45")), ("10", ("15:50", "16:35")),
   ("11", ("16:40", "17:25"))]

/-- The `schedule_config` dictionary consulted by
`_get_configurable_class_times`, with every key present (the source
supplies per-key defaults through `.get`; a fully populated record models
any concrete configuration). -/
structure ScheduleConfig where
  school_start_time : String
  lesson_duration_minutes : Int
  short_break_minutes : Int
  long_break_1_minutes : Int
  long_break_2_minutes : Int
  lunch_break_minutes : Int
deriving DecidableEq

/-- calendar.py `_parse_time_to_minutes` (HH:MM; any failure degrades to
8:00 AM = 480 minutes). -/
def calendar_parse_time_to_minutes (time_str : String) : Int :=
  match pySplit ':' time_str with
  | [h, m] =>
      match pyIntOfString h, pyIntOfString m with
      | some hh, some mm => hh * 60 + mm
      | _, _ => 480
  | _ => 480

/-- Zero-pad an integer to two digits like `f"{n:02d}"`. -/
def pad2i (n : Int) : String :=
  if 0 ≤ n ∧ n < 10 then "0" ++ toString n else toString n

/-- calendar.py `_format_minutes_to_time` (Python `//` and `%` are
floor operations). -/
def calendar_format_minutes_to_time (minutes : Int) : String :=
  pad2i (minutes.fdiv 60) ++ ":" ++ pad2i (minutes.fmod 60)

/-- The break inserted after hour `h` in the fallback accumulation loop
of `_get_configurable_class_times`. -/
def breakAfter (config : ScheduleConfig) (h : Nat) : Int :=
  if h = 2 then config.long_break_1_minutes
  else if h = 4 then config.long_break_2_minutes
  else if h = 6 then config.lunch_break_minutes
  else config.short_break_minutes

/-- `_get_configurable_class_times(class_hour_number)` in the branch where
a `schedule_config` is present: validate the hour, then accumulate
lesson durations and breaks from the configured base start time.  Invalid
hour numbers fall back to the `DEFAULT_CLASS_TIMES` table. -/
def _get_configurable_class_times (config : ScheduleConfig)
    (class_hour_number : String) : String × String :=
  let fallback :=
    (DEFAULT_CLASS_TIMES.lookup class_hour_number).getD ("08:00", "08:45")
  match pyIntOfString class_hour_number with
  | none => fallback
  | some hour =>
      if hour < 1 ∨ 10 < hour then fallback
      else
        let base := calendar_parse_time_to_minutes config.school_start_time
        let start_minutes :=
          ((List.range (hour - 1).toNat).map (· + 1)).foldl
            (fun acc h =>
              acc + config.lesson_duration_minutes + breakAfter config h)
            base
        (calendar_format_minutes_to_time start_minutes,
         calendar_format_minutes_to_time
           (start_minutes + config.lesson_duration_minutes))

/-! ## coordinator.py — `_calculate_times_for_hour` and the period
post-pass -/

/-- The hard-coded `default_times` fallback table of
`_calculate_times_for_hour`. -/
def coordinator_default_times : List (Int × (String × String)) :=
  [(1, ("08:00:00", "08:45:00")), (2, ("08:48:00", "09:33:00")),
   (3, ("09:53:00", "10:38:00")), (4, ("10:43:00", "11:28:00")),
   (5, ("11:38:00", "12:23:00")), (6, ("12:28:00", "13:13:00")),
   (7, ("14:08:00", "14:53:00")), (8, ("14:58:00", "15:43:00")),
   (9, ("15:48:00", "16:33:00")), (10, ("16:38:00", "17:23:00")),
   (11, ("17:28:00", "18:13:00"))]

/-- `_calculate_times_for_hour(hour_number)`: `None` becomes hour 1, the
API class-hours table is searched first (string-rendered number
comparison), then the hard-coded defaults. -/
def _calculate_times_for_hour (class_hours : List ClassHour)
    (hour_number : Option Int) : String × String :=
  let h : Int := hour_number.getD 1
  match class_hours.findSome? (fun ch =>
    match ch.number with
    | some n =>
        if n = h then
          some (ch.«from».getD "08:00:00", ch.«until».getD "08:45:00")
        else none
    | none => none) with
  | some t => t
  | none => (coordinator_default_times.lookup h).getD
      ("08:00:00", "08:45:00")

/-- `_assign_correct_hour_numbers(lessons)`: the post-pass after sorting.
It deliberately does **not** reassign period numbers; it only fills in
missing times for lessons that carry a (truthy) period number and lack a
(truthy) start time. -/
def _assign_correct_hour_numbers (class_hours : List ClassHour)
    (lessons : List Lesson) : List Lesson :=
  lessons.map fun l =>
    if truthyNum l.class_hour_number && !truthyStr l.start_time then
      let t := _calculate_times_for_hour class_hours l.class_hour_number
      { l with start_time := some t.1, end_time := some t.2 }
    else l

/-! ## coordinator.py — `_process_lesson` and `_process_schedule_data`

Raw API lesson records.  Missing dictionary keys are `none`; raw
class-hour numbers are modelled as their string rendering (an integer
value `3` and the string `"3"` behave identically everywhere they are
used; a present-but-empty `""` number, which Python would keep as `""`
until the final sort's `int("")` raises, is collapsed to `none`, which
reaches the same `TypeError`). -/

structure RawSubject where
  name : Option String
  abbreviation : Option String
deriving DecidableEq

structure RawRoom where
  name : Option String
deriving DecidableEq

structure RawTeacher where
  firstname : Option String
  lastname : Option String
  abbreviation : Option String
deriving DecidableEq

structure RawActualLesson where
  lessonId : Option String
  subject : Option RawSubject
  room : Option RawRoom
  teachers : Option (List RawTeacher)
deriving DecidableEq

structure RawClassHour where
  number : Option String
  «from» : Option String
  «until» : Option String
deriving DecidableEq

structure RawLesson where
  id : Option String
  date : Option String
  actualLesson : Option RawActualLesson
  classHour : Option RawClassHour
  «type» : Option String
  comment : Option String
  originalTeacher : Option String
deriving DecidableEq

/-- `_enhance_lesson_with_calculated_times(lesson)`: complete records pass
through; a lesson with a truthy period number but a missing time gets
both times computed; non-periodic lessons keep their times. -/
def _enhance_lesson_with_calculated_times (class_hours : List ClassHour)
    (l : Lesson) : Lesson :=
  if truthyNum l.class_hour_number && truthyStr l.start_time &&
      truthyStr l.end_time then l
  else if truthyNum l.class_hour_number &&
      (!truthyStr l.start_time || !truthyStr l.end_time) then
    let t := _calculate_times_for_hour class_hours l.class_hour_number
    { l with start_time := some t.1, end_time := some t.2 }
  else l

/-- The teacher projection of `_process_lesson`. -/
def convTeacher (t : RawTeacher) : Teacher :=
  let f := t.firstname.getD ""
  let l := t.lastname.getD ""
  ⟨pyStrip (f ++ " " ++ l), f, l, t.abbreviation.getD ""⟩

/-- `_process_lesson(lesson)`.  The surrounding `try/except` returns
`None` only when an expression raises, which cannot happen for inputs
representable in this model, so the function is total here. -/
def _process_lesson (class_hours : List ClassHour) (lesson : RawLesson) :
    Lesson :=
  let actual := lesson.actualLesson
  let class_hour := lesson.classHour
  let class_hour_num : Option Int :=
    match class_hour.bind (·.number) with
    | none => none
    | some s => if s = "" then none else pyIntOfString s
  let base : Lesson :=
    { id :=
        match actual.bind (·.lessonId) with
        | some v => some v
        | none => lesson.id
      date := lesson.date.getD ""
      class_hour_number := class_hour_num
      start_time := class_hour.bind (·.«from»)
      end_time := class_hour.bind (·.«until»)
      subject := ((actual.bind (·.subject)).bind (·.name)).getD ""
      subject_name := ((actual.bind (·.subject)).bind (·.name)).getD ""
      subject_abbreviation :=
        ((actual.bind (·.subject)).bind (·.abbreviation)).getD ""
      room := ((actual.bind (·.room)).bind (·.name)).getD ""
      teacher := ""
      teacher_abbreviation := ""
      teacher_firstname := ""
      teacher_lastname := ""
      teachers := []
      «type» := lesson.«type».getD "regularLesson"
      is_substitution := lesson.«type» == some "substitution"
      comment := lesson.comment.getD ""
      is_cancelled := false
      is_free_hour := false
      original_teacher := none }
  let enhanced := _enhance_lesson_with_calculated_times class_hours base
  let teacher_info := ((actual.bind (·.teachers)).getD []).map convTeacher
  let withTeachers := { enhanced with teachers := teacher_info }
  let withPrimary :=
    match teacher_info with
    | [] => withTeachers
    | t0 :: _ =>
        { withTeachers with
          teacher := t0.abbreviation
          teacher_firstname := t0.firstname
          teacher_lastname := t0.lastname
          teacher_abbreviation := t0.abbreviation }
  if withPrimary.is_substitution && truthyStr lesson.originalTeacher then
    { withPrimary with original_teacher := lesson.originalTeacher }
  else withPrimary

/-- Comparability of two sort keys `(date, start_time)` under Python's
tuple comparison: comparing `None` against a string (reached only when
the dates are equal) raises `TypeError`. -/
def sort1Compat (a b : Lesson) : Bool :=
  a.date != b.date || (a.start_time.isSome == b.start_time.isSome)

/-- The `(date, start_time)` tuple order of the first sort in
`_process_schedule_data` (total on compatible keys; the `none`-vs-`some`
branches are unreachable under the compatibility guard). -/
def sort1LE (a b : Lesson) : Bool :=
  strLt a.date b.date ||
    (a.date == b.date &&
      (match a.start_time, b.start_time with
       | none, none => true
       | some x, some y => strLE x y
       | none, some _ => true
       | some _, none => false))

/-- `processed_lessons.sort(key=lambda x: (x.get("date", ""),
x.get("start_time", "")))`: raises `TypeError` when two records with the
same date mix a `None` start time with a string one. -/
def pysort1 (ls : List Lesson) : Except String (List Lesson) :=
  if ls.all (fun a => ls.all (fun b => sort1Compat a b)) then
    .ok (pysort sort1LE ls)
  else
    .error "TypeError: '<' not supported between str and NoneType"

/-- `_process_schedule_data(schedule_data)`: normalize every raw lesson,
sort, then run the hour-number post-pass. -/
def _process_schedule_data (class_hours : List ClassHour)
    (raws : List RawLesson) : Except String (List Lesson) :=
  (pysort1 (raws.map (_process_lesson class_hours))).map
    (_assign_correct_hour_numbers class_hours)

/-- The normalization-plus-augmentation pipeline of
`_async_update_data` (coordinator.py lines 115–120):
`_process_schedule_data` followed by `add_free_hours_to_schedule`. -/
def schedulePipeline (class_hours : List ClassHour)
    (raws : List RawLesson) (start_date end_date : Nat) :
    Except String (List Lesson) :=
  (_process_schedule_data class_hours raws).bind fun ls =>
    add_free_hours_to_schedule ls class_hours start_date end_date

/-! ## coordinator.py — the per-student fetch loop

The per-student body of `_async_update_data` runs under
`try: ... except SchulmanagerAPIError: continue`; any other exception
escapes to the outer `except Exception`, which re-raises as
`UpdateFailed` and aborts the whole cycle.  The outcome of one student's
fetch-and-process body is abstracted as a `FetchOutcome`. -/

inductive FetchOutcome (β : Type) where
  | ok : β → FetchOutcome β
  | apiError : String → FetchOutcome β
  | otherError : String → FetchOutcome β
deriving DecidableEq

/-- The per-student loop: an `apiError` is caught (`continue`), an
`otherError` propagates and fails the entire cycle, and successful
students are collected into `data["students"]` in order. -/
def processStudents {β : Type} :
    List (Int × FetchOutcome β) → Except String (List (Int × β))
  | [] => .ok []
  | (sid, o) :: rest =>
      match o with
      | .ok d => (processStudents rest).map (fun tail => (sid, d) :: tail)
      | .apiError _ => processStudents rest
      | .otherError e => .error e

/-! ## Helper lemmas -/

/-- The entry predicate "sits at `(date_str, p)`". -/
def atP (ds : String) (p : Int) (l : Lesson) : Bool :=
  l.date == ds && l.class_hour_number == some p

/-- The date strings of the non-weekend days the augmentation loop
visits. -/
def visited (start_date end_date : Nat) : List String :=
  ((daysRange start_date end_date).filter (fun x => !isWeekend x)).map
    dateStr

theorem daysRange_nodup (sd ed : Nat) : (daysRange sd ed).Nodup := by
  unfold daysRange
  exact (List.nodup_range _).map fun a b h => by omega

theorem available_periods_nodup (chs : List ClassHour) :
    (available_periods chs).Nodup := by
  induction chs with
  | nil => simp [available_periods]
  | cons ch rest ih =>
      unfold available_periods
      match h : ch.number with
      | none => simpa using ih
      | some n =>
          simp only []
          split
          · next hc => exact List.Nodup.cons hc.2.2 ih
          · exact ih

theorem mem_occupied_iff (L : List Lesson) (ds : String) (p : Int) :
    p ∈ get_occupied_periods_for_date L ds ↔
      ∃ l ∈ L, l.date = ds ∧ l.class_hour_number = some p := by
  unfold get_occupied_periods_for_date
  simp only [List.mem_filterMap]
  constructor
  · rintro ⟨l, hl, hf⟩
    by_cases hd : l.date = ds
    · simp [hd] at hf
      exact ⟨l, hl, hd, hf⟩
    · simp [hd] at hf
  · rintro ⟨l, hl, hd, hp⟩
    exact ⟨l, hl, by simp [hd, hp]⟩

theorem mem_processDay {lessons : List Lesson} {avail : List Int}
    {pt : Int → String × String} {d : Nat} {l : Lesson}
    (h : l ∈ processDay lessons avail pt d) :
    l.date = dateStr d ∧ isWeekend d = false := by
  unfold processDay at h
  split at h
  · simp at h
  · next hw =>
    refine ⟨?_, by simpa using hw⟩
    rcases List.mem_append.mp h with h1 | h2
    · exact of_decide_eq_true (List.mem_filter.mp h1).2
    · unfold freeHoursForDay at h2
      rcases List.mem_map.mp h2 with ⟨p, _, rfl⟩
      rfl

theorem processDay_real_or_free {lessons : List Lesson} {avail : List Int}
    {pt : Int → String × String} {d : Nat} {l : Lesson}
    (h : l ∈ processDay lessons avail pt d) :
    l ∈ lessons ∨
      ∃ p ∈ avail,
        p ∉ get_occupied_periods_for_date
          (lessons.filter (fun x => x.date = dateStr d)) (dateStr d) ∧
        l = create_free_hour_lesson (dateStr d) p (pt p).1 (pt p).2 := by
  unfold processDay at h
  split at h
  · simp at h
  · rcases List.mem_append.mp h with h1 | h2
    · exact Or.inl (List.mem_of_mem_filter h1)
    · unfold freeHoursForDay at h2
      rcases List.mem_map.mp h2 with ⟨p, hp, rfl⟩
      rcases List.mem_filter.mp hp with ⟨hpa, hpo⟩
      exact Or.inr ⟨p, hpa, by simpa using hpo, rfl⟩

theorem countP_atP_filter (lessons : List Lesson) (ds : String) (p : Int) :
    (lessons.filter (fun x => x.date = ds)).countP (atP ds p) =
      lessons.countP (atP ds p) := by
  rw [List.countP_filter]
  apply List.countP_congr
  intro l _
  unfold atP
  by_cases hd : l.date = ds <;> simp [hd]

theorem count_mem_nodup (q : List Int) (p : Int) (hq : q.Nodup) :
    q.countP (fun x => x == p) = if p ∈ q then 1 else 0 := by
  induction q with
  | nil => simp
  | cons a as ih =>
      have has := (List.nodup_cons.mp hq).1
      have ih' := ih (List.nodup_cons.mp hq).2
      rw [List.countP_cons]
      by_cases hap : a = p
      · subst hap
        simp [ih', has]
      · have hpa : ¬p = a := fun h => hap h.symm
        simp [ih', hap, hpa]

theorem countP_freeHours (avail : List Int) (pt : Int → String × String)
    (occ : List Int) (ds : String) (p : Int) (hn : avail.Nodup) :
    (freeHoursForDay avail pt occ ds).countP (atP ds p) =
      if p ∈ avail ∧ p ∉ occ then 1 else 0 := by
  unfold freeHoursForDay
  rw [List.countP_map]
  have hcong :
      (avail.filter (fun p' => p' ∉ occ)).countP
        (atP ds p ∘ fun x =>
          create_free_hour_lesson ds x (pt x).1 (pt x).2) =
      (avail.filter (fun p' => p' ∉ occ)).countP (fun x => x == p) := by
    apply List.countP_congr
    intro x _
    by_cases hxp : x = p
    · subst hxp
      simp [atP, create_free_hour_lesson, Function.comp]
    · simp [atP, create_free_hour_lesson, Function.comp, hxp]
  rw [hcong, count_mem_nodup _ _ (hn.filter _)]
  by_cases hpa : p ∈ avail <;> by_cases hpo : p ∈ occ <;>
    simp [List.mem_filter, hpa, hpo]

theorem processDay_countP (lessons : List Lesson) (avail : List Int)
    (pt : Int → String × String) (d : Nat) (p : Int)
    (hw : isWeekend d = false) (hn : avail.Nodup) :
    (processDay lessons avail pt d).countP (atP (dateStr d) p) =
      lessons.countP (atP (dateStr d) p) +
        (if p ∈ avail ∧
            p ∉ get_occupied_periods_for_date
              (lessons.filter (fun x => x.date = dateStr d)) (dateStr d)
          then 1 else 0) := by
  unfold processDay
  rw [if_neg (by simp [hw])]
  rw [List.countP_append, countP_atP_filter, countP_freeHours _ _ _ _ _ hn]

theorem processDay_countP_zero (lessons : List Lesson) (avail : List Int)
    (pt : Int → String × String) (d : Nat) (ds : String) (p : Int)
    (hne : dateStr d ≠ ds) :
    (processDay lessons avail pt d).countP (atP ds p) = 0 := by
  apply List.countP_eq_zero.mpr
  intro l hl
  have hd := (mem_processDay hl).1
  unfold atP
  simp [hd, hne]

theorem flatMap_countP_single {α β : Type} (q : β → Bool)
    (f : α → List β) (days : List α) (d : α) (hd : d ∈ days)
    (hnd : days.Nodup)
    (hzero : ∀ d' ∈ days, d' ≠ d → (f d').countP q = 0) :
    (days.flatMap f).countP q = (f d).countP q := by
  induction days with
  | nil => simp at hd
  | cons a as ih =>
      rw [List.flatMap_cons, List.countP_append]
      by_cases had : a = d
      · subst had
        have hnotin : a ∉ as := (List.nodup_cons.mp hnd).1
        have hrest : (as.flatMap f).countP q = 0 := by
          rw [List.countP_eq_zero]
          intro b hb
          rcases List.mem_flatMap.mp hb with ⟨d', hd', hbd⟩
          have hne : d' ≠ a := fun h => hnotin (h ▸ hd')
          have hz := hzero d' (List.mem_cons_of_mem _ hd') hne
          rw [List.countP_eq_zero] at hz
          exact hz b hbd
        rw [hrest]
        simp
      · have hmem : d ∈ as := by
          rcases List.mem_cons.mp hd with h | h
          · exact absurd h.symm had
          · exact h
        rw [hzero a (List.mem_cons_self _ _) had,
          ih hmem (List.nodup_cons.mp hnd).2
            (fun d' h' => hzero d' (List.mem_cons_of_mem _ h'))]
        simp

/-- Extract the list from a successful result (`[]` on error). -/
def outOf : Except String (List Lesson) → List Lesson
  | .ok l => l
  | .error _ => []

theorem processDay_weekend {lessons : List Lesson} {avail : List Int}
    {pt : Int → String × String} {d : Nat} (h : isWeekend d = true) :
    processDay lessons avail pt d = [] := by
  simp [processDay, h]

theorem add_free_hours_ok {lessons : List Lesson} {chs : List ClassHour}
    {sd ed : Nat} {out : List Lesson}
    (hok : add_free_hours_to_schedule lessons chs sd ed = .ok out) :
    (available_periods chs = [] ∧ out = lessons) ∨
    (available_periods chs ≠ [] ∧
      out.Perm ((daysRange sd ed).flatMap
        (processDay lessons (available_periods chs)
          (period_times_lookup chs)))) := by
  by_cases hav : available_periods chs = []
  · simp only [add_free_hours_to_schedule, if_pos hav] at hok
    exact Or.inl ⟨hav, by injection hok with h; exact h.symm⟩
  · simp only [add_free_hours_to_schedule, if_neg hav] at hok
    unfold pysortFreeHours at hok
    split at hok
    · injection hok with h
      subst h
      exact Or.inr ⟨hav, pysort_perm _ _⟩
    · exact absurd hok (by simp)

theorem visited_inj {sd ed d d' : Nat} (hnd : (visited sd ed).Nodup)
    (hd : d ∈ daysRange sd ed) (hd' : d' ∈ daysRange sd ed)
    (hw : isWeekend d = false) (hw' : isWeekend d' = false)
    (heq : dateStr d = dateStr d') : d = d' := by
  by_contra hne
  unfold visited at hnd
  have hnd' : ((daysRange sd ed).filter (fun x => !isWeekend x)).Pairwise
      (fun a b => dateStr a ≠ dateStr b) := List.pairwise_map.mp hnd
  have hsym : Symmetric fun a b : Nat => dateStr a ≠ dateStr b :=
    fun a b h => h ∘ Eq.symm
  have h1 : d ∈ (daysRange sd ed).filter (fun x => !isWeekend x) :=
    List.mem_filter.mpr ⟨hd, by simp [hw]⟩
  have h2 : d' ∈ (daysRange sd ed).filter (fun x => !isWeekend x) :=
    List.mem_filter.mpr ⟨hd', by simp [hw']⟩
  exact hnd'.forall hsym h1 h2 hne heq

/-- C1 (amended): for every non-weekend day of the range and every
period, the successful output of `add_free_hours_to_schedule` has
exactly one synthesized free-hour entry at every available unoccupied
`(date, period)` slot (with the table times and the free-hour shape),
keeps exactly the input lessons at every occupied slot, and populates
exactly the union of the available and the occupied periods. -/
theorem C1_free_hour_coverage
    (lessons : List Lesson) (chs : List ClassHour) (sd ed d : Nat)
    (p : Int) (out : List Lesson)
    (hd : d ∈ daysRange sd ed) (hw : isWeekend d = false)
    (hnd : (visited sd ed).Nodup)
    (hok : add_free_hours_to_schedule lessons chs sd ed = .ok out) :
    (p ∈ available_periods chs →
      p ∉ get_occupied_periods_for_date
          (lessons.filter (fun x => x.date = dateStr d)) (dateStr d) →
      out.countP (atP (dateStr d) p) = 1 ∧
      ∀ l ∈ out, atP (dateStr d) p l = true →
        l = create_free_hour_lesson (dateStr d) p
          (period_times_lookup chs p).1 (period_times_lookup chs p).2) ∧
    (p ∈ available_periods chs →
      p ∈ get_occupied_periods_for_date
          (lessons.filter (fun x => x.date = dateStr d)) (dateStr d) →
      out.countP (atP (dateStr d) p) =
        lessons.countP (atP (dateStr d) p) ∧
      ∀ l ∈ out, atP (dateStr d) p l = true → l ∈ lessons) ∧
    ((∃ l ∈ out, atP (dateStr d) p l = true) ↔
      (available_periods chs ≠ [] ∧ p ∈ available_periods chs) ∨
        p ∈ get_occupied_periods_for_date
          (lessons.filter (fun x => x.date = dateStr d)) (dateStr d)) := by
  set avail := available_periods chs with havdef
  set pt := period_times_lookup chs with hptdef
  set ds := dateStr d with hdsdef
  set occ := get_occupied_periods_for_date
    (lessons.filter (fun x => x.date = ds)) ds with hoccdef
  have hoccP : ∀ q : Int, q ∈ occ ↔
      ∃ l ∈ lessons, l.date = ds ∧ l.class_hour_number = some q := by
    intro q
    rw [hoccdef, mem_occupied_iff]
    constructor
    · rintro ⟨l, hl, h1, h2⟩
      exact ⟨l, List.mem_of_mem_filter hl, h1, h2⟩
    · rintro ⟨l, hl, h1, h2⟩
      exact ⟨l, List.mem_filter.mpr ⟨hl, by simp [h1]⟩, h1, h2⟩
  have hatP : ∀ l : Lesson, atP ds p l = true ↔
      l.date = ds ∧ l.class_hour_number = some p := by
    intro l
    unfold atP
    simp
  rcases add_free_hours_ok hok with ⟨hav, rfl⟩ | ⟨hav, hperm⟩
  · -- early return: no available periods, lessons returned unchanged
    rw [← havdef] at hav
    refine ⟨?_, ?_, ?_⟩
    · intro hp
      rw [hav] at hp
      simp at hp
    · intro hp
      rw [hav] at hp
      simp at hp
    · rw [hav]
      simp only [ne_eq, not_true_eq_false, false_and, false_or]
      constructor
      · rintro ⟨l, hl, hat⟩
        rcases (hatP l).mp hat with ⟨h1, h2⟩
        exact (hoccP p).mpr ⟨l, hl, h1, h2⟩
      · intro hp
        rcases (hoccP p).mp hp with ⟨l, hl, h1, h2⟩
        exact ⟨l, hl, (hatP l).mpr ⟨h1, h2⟩⟩
  · rw [← havdef, ← hptdef] at hperm
    have hnodav : avail.Nodup := havdef ▸ available_periods_nodup chs
    -- the only day block contributing entries at (ds, _) is day d
    have hzero : ∀ d' ∈ daysRange sd ed, d' ≠ d →
        (processDay lessons avail pt d').countP (atP ds p) = 0 := by
      intro d' hd' hne
      by_cases hw' : isWeekend d'
      · rw [processDay_weekend hw']
        rfl
      · apply processDay_countP_zero
        intro hcontra
        rw [hdsdef] at hcontra
        exact hne (visited_inj hnd hd' hd (by simpa using hw') hw hcontra)
    have hcount : out.countP (atP ds p) =
        lessons.countP (atP ds p) +
          (if p ∈ avail ∧ p ∉ occ then 1 else 0) := by
      rw [hperm.countP_eq]
      rw [flatMap_countP_single _ _ _ d hd (daysRange_nodup sd ed) hzero]
      rw [hdsdef]
      rw [processDay_countP lessons avail pt d p hw hnodav]
    -- classify any output entry at (ds, p)
    have hmemout : ∀ l ∈ out, atP ds p l = true →
        (l ∈ lessons ∧ p ∈ occ) ∨
          (p ∈ avail ∧ p ∉ occ ∧
            l = create_free_hour_lesson ds p (pt p).1 (pt p).2) := by
      intro l hl hat
      rcases (hatP l).mp hat with ⟨hldate, hlnum⟩
      rcases List.mem_flatMap.mp (hperm.mem_iff.mp hl) with ⟨d', hd', hpd⟩
      have hw' := (mem_processDay hpd).2
      have hldate' := (mem_processDay hpd).1
      have hdd : d' = d := visited_inj hnd hd' hd hw' hw
        (by rw [← hldate', hldate])
      subst hdd
      rcases processDay_real_or_free hpd with hreal | ⟨q, hqa, hqo, rfl⟩
      · exact Or.inl ⟨hreal, (hoccP p).mpr ⟨l, hreal, hldate, hlnum⟩⟩
      · have hqp : q = p := by
          have := hlnum
          simp [create_free_hour_lesson] at this
          exact this
        subst hqp
        exact Or.inr ⟨hqa, by rwa [← hoccdef] at hqo, rfl⟩
    refine ⟨?_, ?_, ?_⟩
    · intro hp hnp
      have hlz : lessons.countP (atP ds p) = 0 := by
        rw [List.countP_eq_zero]
        intro l hl hat
        rcases (hatP l).mp hat with ⟨h1, h2⟩
        exact hnp ((hoccP p).mpr ⟨l, hl, h1, h2⟩)
      constructor
      · rw [hcount, hlz, if_pos ⟨hp, hnp⟩]
      · intro l hl hat
        rcases hmemout l hl hat with ⟨_, hocc⟩ | ⟨_, _, heq⟩
        · exact absurd hocc hnp
        · exact heq
    · intro hp hoc
      constructor
      · rw [hcount, if_neg (by simp [hoc])]
        omega
      · intro l hl hat
        rcases hmemout l hl hat with ⟨hmem, _⟩ | ⟨_, hnp, _⟩
        · exact hmem
        · exact absurd hoc hnp
    · constructor
      · rintro ⟨l, hl, hat⟩
        rcases hmemout l hl hat with ⟨_, hocc⟩ | ⟨hpa, _, _⟩
        · exact Or.inr hocc
        · exact Or.inl ⟨hav, hpa⟩
      · intro hcase
        have hpos : 0 < out.countP (atP ds p) := by
          rcases hcase with ⟨_, hpa⟩ | hocc
          · by_cases hoc : p ∈ occ
            · rcases (hoccP p).mp hoc with ⟨l, hl, h1, h2⟩
              rw [hcount]
              have : 0 < lessons.countP (atP ds p) :=
                List.countP_pos_iff.mpr ⟨l, hl, (hatP l).mpr ⟨h1, h2⟩⟩
              omega
            · rw [hcount, if_pos ⟨hpa, hoc⟩]
              omega
          · rcases (hoccP p).mp hocc with ⟨l, hl, h1, h2⟩
            rw [hcount]
            have : 0 < lessons.countP (atP ds p) :=
              List.countP_pos_iff.mpr ⟨l, hl, (hatP l).mpr ⟨h1, h2⟩⟩
            omega
        rcases List.countP_pos_iff.mp hpos with ⟨l, hl, hat⟩
        exact ⟨l, hl, hat⟩

/-! ## Concrete fixtures for the scenario theorems -/

/-- A plain processed lesson used by the concrete scenarios. -/
def sampleLesson (d : String) (p : Option Int) (st et : Option String) :
    Lesson :=
  { id := some "4711"
    date := d
    class_hour_number := p
    start_time := st
    end_time := et
    subject := "Mathematik"
    subject_name := "Mathematik"
    subject_abbreviation := "M"
    room := "R101"
    teacher := "ABC"
    teacher_abbreviation := "ABC"
    teacher_firstname := "Anna"
    teacher_lastname := "Beispiel"
    teachers := [⟨"Anna Beispiel", "Anna", "Beispiel", "ABC"⟩]
    «type» := "regularLesson"
    is_substitution := false
    comment := ""
    is_cancelled := false
    is_free_hour := false
    original_teacher := none }

def c1xChs : List ClassHour := [⟨some 1, some "08:00:00", some "08:45:00"⟩]

def c1xLesson : Lesson :=
  sampleLesson "2025-09-08" (some 2) (some "08:50:00") (some "09:35:00")

def c1xOut : List Lesson :=
  outOf (add_free_hours_to_schedule [c1xLesson] c1xChs 20339 20339)

/-- C1 counterexample: with the non-empty class-hours table defining only
period 1 and a Monday lesson at period 2, the augmented schedule has an
entry at `(2025-09-08, 2)` although `2` is not an available period, so the
populated `(date, period)` set is strictly larger than the
available-periods set. -/
theorem C1_counterexample :
    add_free_hours_to_schedule [c1xLesson] c1xChs 20339 20339 =
      .ok c1xOut ∧
    (∃ l ∈ c1xOut, atP "2025-09-08" 2 l = true) ∧
    (2 : Int) ∉ available_periods c1xChs ∧
    20339 ∈ daysRange 20339 20339 ∧ isWeekend 20339 = false :=
  ⟨rfl, by decide, by decide, by decide, by decide⟩

def c1wChs : List ClassHour :=
  [⟨some 1, some "08:00:00", some "08:45:00"⟩,
   ⟨some 2, some "08:50:00", some "09:35:00"⟩,
   ⟨some 3, some "09:55:00", some "10:40:00"⟩]

def c1wLessons : List Lesson :=
  [sampleLesson "2025-09-08" (some 2) (some "08:50:00") (some "09:35:00")]

def c1wOut : List Lesson :=
  outOf (add_free_hours_to_schedule c1wLessons c1wChs 20339 20339)

/-- C1 witness: with available periods {1,2,3} and only period 2 occupied
on Monday 2025-09-08, the theorem instantiates: period 1 carries exactly
one synthesized free hour with the table times. -/
theorem C1_witness :
    c1wOut.countP (atP "2025-09-08" 1) = 1 ∧
    ∀ l ∈ c1wOut, atP "2025-09-08" 1 l = true →
      l = create_free_hour_lesson "2025-09-08" 1
        (period_times_lookup c1wChs 1).1 (period_times_lookup c1wChs 1).2 := by
  have h := C1_free_hour_coverage c1wLessons c1wChs 20339 20339 20339 1
    c1wOut (by decide) (by decide) (by decide) rfl
  have hfree := h.1 (by decide) (by decide)
  have hds : dateStr 20339 = "2025-09-08" := by decide
  rw [hds] at hfree
  exact hfree

/-- C10: when at least one class hour defines an available period, every
entry of the successful output is dated on a non-weekend day of
`[start_date, end_date]`, and any input lesson whose date is not one of
those days is absent from the output. -/
theorem C10_weekday_range_restriction
    (lessons : List Lesson) (chs : List ClassHour) (sd ed : Nat)
    (out : List Lesson)
    (hav : available_periods chs ≠ [])
    (hok : add_free_hours_to_schedule lessons chs sd ed = .ok out) :
    (∀ l ∈ out, ∃ d ∈ daysRange sd ed,
      isWeekend d = false ∧ l.date = dateStr d) ∧
    (∀ l ∈ lessons,
      (∀ d ∈ daysRange sd ed, isWeekend d = false → l.date ≠ dateStr d) →
      l ∉ out) := by
  rcases add_free_hours_ok hok with ⟨hav', _⟩ | ⟨_, hperm⟩
  · exact absurd hav' hav
  · have hall : ∀ l ∈ out, ∃ d ∈ daysRange sd ed,
        isWeekend d = false ∧ l.date = dateStr d := by
      intro l hl
      rcases List.mem_flatMap.mp (hperm.mem_iff.mp hl) with ⟨d, hd, hpd⟩
      exact ⟨d, hd, (mem_processDay hpd).2, (mem_processDay hpd).1⟩
    refine ⟨hall, ?_⟩
    intro l _ hnone hl
    rcases hall l hl with ⟨d, hd, hw, hdate⟩
    exact hnone d hd hw hdate

def c10Chs : List ClassHour := [⟨some 1, some "08:00:00", some "08:45:00"⟩]

def c10Sat : Lesson :=
  sampleLesson "2025-09-13" (some 1) (some "08:00:00") (some "08:45:00")

def c10Out : List Lesson :=
  outOf (add_free_hours_to_schedule [c10Sat] c10Chs 20339 20343)

/-- C10 witness: a lesson dated Saturday 2025-09-13 is dropped from the
augmented Monday–Friday schedule of the week 2025-09-08..12. -/
theorem C10_witness :
    available_periods c10Chs ≠ [] ∧ c10Sat ∉ c10Out := by
  have h := C10_weekday_range_restriction [c10Sat] c10Chs 20339 20343
    c10Out (by decide) rfl
  exact ⟨by decide, h.2 c10Sat (by decide) (by decide)⟩

/-! ## Lemmas about the change-detector lookups -/

theorem lookupA_insert_self (m : List (String × Lesson)) (k : String)
    (v : Lesson) : lookupA (insertKV m k v) k = some v := by
  induction m with
  | nil => simp [insertKV, lookupA]
  | cons kv rest ih =>
      obtain ⟨k0, v0⟩ := kv
      unfold insertKV
      by_cases h : k0 = k
      · simp [h, lookupA]
      · simp only [h, if_false]
        unfold lookupA
        simp [h, ih]

theorem lookupA_insert_ne (m : List (String × Lesson)) (k k' : String)
    (v : Lesson) (h : k' ≠ k) :
    lookupA (insertKV m k v) k' = lookupA m k' := by
  have hne : ¬(k = k') := fun hh => h hh.symm
  induction m with
  | nil => simp [insertKV, lookupA, hne]
  | cons kv rest ih =>
      obtain ⟨k0, v0⟩ := kv
      unfold insertKV
      by_cases hk : k0 = k
      · subst hk
        unfold lookupA
        simp [hne]
      · simp only [hk, if_false]
        unfold lookupA
        by_cases hkk : k0 = k'
        · simp [hkk]
        · simp [hkk, ih]

theorem keys_insertKV (m : List (String × Lesson)) (k : String)
    (v : Lesson) :
    (insertKV m k v).map Prod.fst =
      if k ∈ m.map Prod.fst then m.map Prod.fst
      else m.map Prod.fst ++ [k] := by
  induction m with
  | nil => simp [insertKV]
  | cons kv rest ih =>
      obtain ⟨k0, v0⟩ := kv
      unfold insertKV
      by_cases h : k0 = k
      · simp [h]
      · have hne : ¬k = k0 := fun hh => h hh.symm
        simp only [h, if_false, List.map_cons, ih]
        by_cases hmem : k ∈ rest.map Prod.fst <;>
          simp [hmem, hne]

theorem keys_insertKV_nodup (m : List (String × Lesson)) (k : String)
    (v : Lesson) (h : (m.map Prod.fst).Nodup) :
    ((insertKV m k v).map Prod.fst).Nodup := by
  rw [keys_insertKV]
  by_cases hmem : k ∈ m.map Prod.fst
  · simpa [hmem]
  · simp only [hmem, if_false]
    refine List.nodup_append.mpr ⟨h, List.nodup_singleton _, ?_⟩
    intro a ha hb
    rw [List.mem_singleton] at hb
    subst hb
    exact hmem ha

theorem entries_insertKV (m : List (String × Lesson)) (k : String)
    (v : Lesson) :
    ∀ kv ∈ insertKV m k v, kv = (k, v) ∨ kv ∈ m := by
  induction m with
  | nil => simp [insertKV]
  | cons kv0 rest ih =>
      obtain ⟨k0, v0⟩ := kv0
      unfold insertKV
      by_cases h : k0 = k
      · intro kv hkv
        simp only [h, if_true] at hkv
        rcases List.mem_cons.mp hkv with rfl | hmem
        · exact Or.inl rfl
        · right
          exact List.mem_cons_of_mem _ hmem
      · intro kv hkv
        simp only [h, if_false] at hkv
        rcases List.mem_cons.mp hkv with rfl | hmem
        · right
          exact List.mem_cons_self _ _
        · rcases ih kv hmem with h1 | h2
          · exact Or.inl h1
          · exact Or.inr (List.mem_cons_of_mem _ h2)

theorem buildLookup_keys_nodup (ls : List Lesson) :
    ((buildLookup ls).map Prod.fst).Nodup := by
  have hgen : ∀ (ls : List Lesson) (m : List (String × Lesson)),
      (m.map Prod.fst).Nodup →
      ((ls.foldl (fun m l => insertKV m (lessonKey l) l) m).map
        Prod.fst).Nodup := by
    intro ls
    induction ls with
    | nil => intro m hm; simpa using hm
    | cons l rest ih =>
        intro m hm
        exact ih _ (keys_insertKV_nodup m (lessonKey l) l hm)
  exact hgen ls [] (by simp)

theorem buildLookup_entry_key (ls : List Lesson) :
    ∀ kv ∈ buildLookup ls, lessonKey kv.2 = kv.1 := by
  have hgen : ∀ (ls : List Lesson) (m : List (String × Lesson)),
      (∀ kv ∈ m, lessonKey kv.2 = kv.1) →
      ∀ kv ∈ ls.foldl (fun m l => insertKV m (lessonKey l) l) m,
        lessonKey kv.2 = kv.1 := by
    intro ls
    induction ls with
    | nil => intro m hm; simpa using hm
    | cons l rest ih =>
        intro m hm
        apply ih
        intro kv hkv
        rcases entries_insertKV m (lessonKey l) l kv hkv with rfl | hmem
        · rfl
        · exact hm kv hmem
  exact hgen ls [] (by simp)

theorem filterMap_key_filter_nil (m : List (String × Lesson))
    (g : String × Lesson → Option ChangeRecord) (k : String)
    (hkey : ∀ kv ∈ m, ∀ r, g kv = some r → recordKey r = kv.1)
    (hk : k ∉ m.map Prod.fst) :
    (m.filterMap g).filter (fun r => recordKey r == k) = [] := by
  induction m with
  | nil => simp
  | cons kv m' ih =>
      have hk1 : kv.1 ≠ k := by
        intro h
        exact hk (by simp [← h])
      have hk' : k ∉ m'.map Prod.fst := fun h => hk (by simp [h])
      have hkey' : ∀ kv ∈ m', ∀ r, g kv = some r → recordKey r = kv.1 :=
        fun kv2 h2 => hkey kv2 (List.mem_cons_of_mem _ h2)
      rw [List.filterMap_cons]
      cases hg : g kv with
      | none => exact ih hkey' hk'
      | some r =>
          have hrk : recordKey r = kv.1 := hkey kv (List.mem_cons_self _ _) r hg
          rw [List.filter_cons]
          have hb : (recordKey r == k) = false := by
            simp [hrk, hk1]
          simp only [hb, Bool.false_eq_true, if_false]
          exact ih hkey' hk'

theorem filterMap_key_filter (m : List (String × Lesson))
    (g : String × Lesson → Option ChangeRecord) (k : String)
    (hn : (m.map Prod.fst).Nodup)
    (hkey : ∀ kv ∈ m, ∀ r, g kv = some r → recordKey r = kv.1) :
    (m.filterMap g).filter (fun r => recordKey r == k) =
      (match lookupA m k with
       | some v => (g (k, v)).toList
       | none => []) := by
  induction m with
  | nil => simp [lookupA]
  | cons kv m' ih =>
      obtain ⟨k0, v0⟩ := kv
      have hn' : (m'.map Prod.fst).Nodup := by
        rw [List.map_cons, List.nodup_cons] at hn
        exact hn.2
      have hkey' : ∀ kv ∈ m', ∀ r, g kv = some r → recordKey r = kv.1 :=
        fun kv2 h2 => hkey kv2 (List.mem_cons_of_mem _ h2)
      rw [List.filterMap_cons]
      by_cases hkk : k0 = k
      · subst hkk
        have hknot : k0 ∉ m'.map Prod.fst := by
          rw [List.map_cons, List.nodup_cons] at hn
          exact hn.1
        have hlk : lookupA ((k0, v0) :: m') k0 = some v0 := by
          unfold lookupA
          simp
        rw [hlk]
        cases hg : g (k0, v0) with
        | none =>
            rw [filterMap_key_filter_nil m' g k0 hkey' hknot]
            show ([] : List ChangeRecord) = (g (k0, v0)).toList
            rw [hg]
            rfl
        | some r =>
            have hrk : recordKey r = k0 :=
              hkey (k0, v0) (List.mem_cons_self _ _) r hg
            rw [List.filter_cons]
            have hb : (recordKey r == k0) = true := by
              simp [hrk]
            simp only [hb, if_true]
            rw [filterMap_key_filter_nil m' g k0 hkey' hknot]
            show r :: ([] : List ChangeRecord) = (g (k0, v0)).toList
            rw [hg]
            rfl
      · have hlk : lookupA ((k0, v0) :: m') k = lookupA m' k := by
          unfold lookupA
          simp only [hkk, if_false]
          cases m' <;> rfl
        rw [hlk]
        cases hg : g (k0, v0) with
        | none => exact ih hn' hkey'
        | some r =>
            have hrk : recordKey r = k0 :=
              hkey (k0, v0) (List.mem_cons_self _ _) r hg
            rw [List.filter_cons]
            have hb : (recordKey r == k) = false := by
              simp [hrk, hkk]
            simp only [hb, Bool.false_eq_true, if_false]
            exact ih hn' hkey'

theorem compare_lessons_recordKey (p c : Lesson) (r : ChangeRecord)
    (h : _compare_lessons p c = some r) : recordKey r = lessonKey c := by
  unfold _compare_lessons at h
  by_cases hcf : changesFound p c = []
  · simp [hcf] at h
  · simp only [hcf, if_false] at h
    injection h with h
    subst h
    rfl

theorem recordKey_added (c : Lesson) :
    recordKey (addedRecord c) = lessonKey c := rfl

theorem recordKey_removed (p : Lesson) :
    recordKey (removedRecord p) = lessonKey p := rfl

/-- The per-key content of the change list: the `current_lookup` pass
contributes the compare/added record of `k` and the `previous_lookup`
pass contributes the removed record of `k`, exactly once each. -/
theorem detect_filter_key (prev curr : List Lesson) (k : String) :
    (detectChangesCore prev curr).filter (fun r => recordKey r == k) =
      (match lookupA (buildLookup curr) k with
       | some c =>
           (match lookupA (buildLookup prev) k with
            | some p => (_compare_lessons p c).toList
            | none => [addedRecord c])
       | none => []) ++
      (match lookupA (buildLookup prev) k with
       | some p =>
           (match lookupA (buildLookup curr) k with
            | some _ => ([] : List ChangeRecord)
            | none => [removedRecord p])
       | none => []) := by
  unfold detectChangesCore
  rw [List.filter_append]
  congr 1
  · rw [filterMap_key_filter _ _ _ (buildLookup_keys_nodup curr) ?hkc]
    case hkc =>
      intro kv hkv r hr
      have hlk := buildLookup_entry_key curr kv hkv
      revert hr
      cases hp : lookupA (buildLookup prev) kv.1 with
      | some p =>
          intro hr
          rw [compare_lessons_recordKey p kv.2 r hr, hlk]
      | none =>
          intro hr
          injection hr with hr
          rw [← hr, recordKey_added, hlk]
    cases hc : lookupA (buildLookup curr) k with
    | none => rfl
    | some c =>
        show ((match lookupA (buildLookup prev) k with
          | some p => _compare_lessons p c
          | none => some (addedRecord c)) : Option ChangeRecord).toList = _
        cases hp : lookupA (buildLookup prev) k with
        | some p => rfl
        | none => rfl
  · rw [filterMap_key_filter _ _ _ (buildLookup_keys_nodup prev) ?hkp]
    case hkp =>
      intro kv hkv r hr
      have hlk := buildLookup_entry_key prev kv hkv
      revert hr
      cases hcv : lookupA (buildLookup curr) kv.1 with
      | some c => intro hr; exact absurd hr (by simp)
      | none =>
          intro hr
          injection hr with hr
          rw [← hr, recordKey_removed, hlk]
    cases hp : lookupA (buildLookup prev) k with
    | none => rfl
    | some p =>
        show ((match lookupA (buildLookup curr) k with
          | some _ => none
          | none => some (removedRecord p)) : Option ChangeRecord).toList = _
        cases hc : lookupA (buildLookup curr) k with
        | some c => rfl
        | none => rfl

theorem fieldDiff_field {p c : Lesson} {fd : String × String}
    {fc : FieldChange} (h : fieldDiff p c fd = some fc) :
    fc.field = fd.1 ∧ fc.display_name = fd.2 := by
  unfold fieldDiff at h
  by_cases ht : fd.1 = "teachers"
  · simp only [ht, if_true] at h
    split at h
    · injection h with h
      subst h
      exact ⟨ht.symm ▸ rfl, rfl⟩
    · exact absurd h (by simp)
  · simp only [ht, if_false] at h
    split at h
    · injection h with h
      subst h
      exact ⟨rfl, rfl⟩
    · exact absurd h (by simp)

/-- C2: the change-detector contract.  Keys present only in the current
snapshot yield exactly the one `added` record, keys present only in the
previous snapshot exactly the one `removed` record, keys present in both
exactly one `modified` record precisely when one of the eight compared
fields differs — whose `field_changes` is the `changes_found` list — and
that list is sound (every entry is a genuinely differing field carrying
the previous/current values) and complete (every differing field is
listed). -/
theorem C2_change_detector (prev curr : List Lesson) (k : String) :
    ((∀ c, lookupA (buildLookup curr) k = some c →
      lookupA (buildLookup prev) k = none →
      (detectChangesCore prev curr).filter (fun r => recordKey r == k) =
        [addedRecord c]) ∧
    (∀ p, lookupA (buildLookup prev) k = some p →
      lookupA (buildLookup curr) k = none →
      (detectChangesCore prev curr).filter (fun r => recordKey r == k) =
        [removedRecord p]) ∧
    (∀ p c, lookupA (buildLookup prev) k = some p →
      lookupA (buildLookup curr) k = some c →
      (detectChangesCore prev curr).filter (fun r => recordKey r == k) =
        (if changesFound p c = [] then [] else
          [{ «type» := "modified"
             date := c.date
             class_hour := c.class_hour_number
             current := some c
             previous := some p
             field_changes := changesFound p c
             description := "Changes in " ++ c.subject ++ ": " ++
               String.intercalate ", "
                 ((changesFound p c).map (·.display_name)) }]))) ∧
    ((∀ p c : Lesson, ∀ fc ∈ changesFound p c,
      (fc.field, fc.display_name) ∈ fields_to_check ∧
      (fc.field ≠ "teachers" →
        fc.previous = getField p fc.field ∧
        fc.current = getField c fc.field ∧
        getField p fc.field ≠ getField c fc.field) ∧
      (fc.field = "teachers" →
        p.teachers.map (·.abbreviation) ≠
          c.teachers.map (·.abbreviation))) ∧
    (∀ p c : Lesson, ∀ f dn : String, (f, dn) ∈ fields_to_check →
      f ≠ "teachers" → getField p f ≠ getField c f →
      (⟨f, dn, getField p f, getField c f⟩ : FieldChange) ∈
        changesFound p c) ∧
    (∀ p c : Lesson,
      p.teachers.map (·.abbreviation) ≠ c.teachers.map (·.abbreviation) →
      ∃ fc ∈ changesFound p c, fc.field = "teachers")) := by
  refine ⟨⟨?_, ?_, ?_⟩, ?_, ?_, ?_⟩
  · intro c hc hp
    rw [detect_filter_key, hc, hp]
    rfl
  · intro p hp hc
    rw [detect_filter_key, hc, hp]
    rfl
  · intro p c hp hc
    rw [detect_filter_key, hc, hp]
    show (_compare_lessons p c).toList ++ [] = _
    rw [List.append_nil]
    unfold _compare_lessons
    by_cases hcf : changesFound p c = []
    · simp [hcf]
    · simp only [hcf, if_false]
      rfl
  · intro p c fc hfc
    rcases List.mem_filterMap.mp hfc with ⟨fd, hfd, hF⟩
    obtain ⟨hf1, hf2⟩ := fieldDiff_field hF
    refine ⟨by rw [hf1, hf2]; exact hfd, ?_, ?_⟩
    · intro hnt
      rw [hf1] at hnt
      unfold fieldDiff at hF
      simp only [hnt, if_false] at hF
      split at hF
      · next hdiff =>
          injection hF with hF
          subst hF
          exact ⟨rfl, rfl, hdiff⟩
      · exact absurd hF (by simp)
    · intro ht
      rw [hf1] at ht
      unfold fieldDiff at hF
      simp only [ht, if_true] at hF
      split at hF
      · next hdiff => exact hdiff
      · exact absurd hF (by simp)
  · intro p c f dn hmem hnt hdiff
    apply List.mem_filterMap.mpr
    refine ⟨(f, dn), hmem, ?_⟩
    unfold fieldDiff
    simp only [hnt, if_false]
    rw [if_pos hdiff]
  · intro p c hdiff
    refine ⟨⟨"teachers", "Teachers",
      .vstr (String.intercalate ", " (p.teachers.map (·.abbreviation))),
      .vstr (String.intercalate ", "
        (c.teachers.map (·.abbreviation)))⟩, ?_, rfl⟩
    apply List.mem_filterMap.mpr
    refine ⟨("teachers", "Teachers"), by decide, ?_⟩
    unfold fieldDiff
    simp only [if_true]
    rw [if_pos hdiff]

def c2Prev : Lesson :=
  sampleLesson "2025-09-11" (some 5) (some "11:38:00") (some "12:23:00")

def c2Curr : Lesson := { c2Prev with room := "R202" }

/-- C2 witness: a previous lesson at (2025-09-11, period 5) in room R101
versus the same lesson in room R202 yields exactly one `modified` record
whose `field_changes` contains only the room field. -/
theorem C2_witness :
    (detectChangesCore [c2Prev] [c2Curr]).filter
      (fun r => recordKey r == "2025-09-11_5") =
      [{ «type» := "modified"
         date := "2025-09-11"
         class_hour := some 5
         current := some c2Curr
         previous := some c2Prev
         field_changes := [⟨"room", "Room", .vstr "R101", .vstr "R202"⟩]
         description := "Changes in Mathematik: Room" }] := by
  have h := ((C2_change_detector [c2Prev] [c2Curr] "2025-09-11_5").1.2.2)
    c2Prev c2Curr (by decide) (by decide)
  rw [h]
  decide

/-! ## C3 — snapshot retention across cycles -/

def c3Prev : Lesson :=
  sampleLesson "2025-09-11" (some 5) (some "11:38:00") (some "12:23:00")

def c3Curr : Lesson := { c3Prev with room := "R202" }

/-- C3 (code bug): `self.previous_data` is never written anywhere in the
source, so every cycle's `_detect_changes` takes the missing-snapshot
branch: starting from the initial empty store, every detection result of
every cycle is the quiet result — even on a second cycle whose schedule
differs from the first in a way `detectChangesCore` would report. -/
theorem C3_previous_snapshot_never_updated :
    (∀ (cycles : List (List (Int × List Lesson)))
      (res : List (Int × DetectResult)), res ∈ runCycles [] cycles →
      ∀ sr ∈ res, sr.2 = ⟨false, [], none⟩) ∧
    runCycles [] [[(1, [c3Prev])], [(1, [c3Curr])]] =
      [[(1, ⟨false, [], none⟩)], [(1, ⟨false, [], none⟩)]] ∧
    detectChangesCore [c3Prev] [c3Curr] ≠ [] := by
  refine ⟨?_, by decide, by decide⟩
  intro cycles
  induction cycles with
  | nil => intro res h; simp [runCycles] at h
  | cons c cs ih =>
      intro res hres sr hsr
      unfold runCycles runCycle at hres
      simp only [] at hres
      rcases List.mem_cons.mp hres with rfl | h
      · rcases List.mem_map.mp hsr with ⟨sc, _, rfl⟩
        rfl
      · exact ih res h sr hsr

/-- C3 witness: the second cycle's result for student 1 is quiet although
the schedules of the two cycles differ. -/
theorem C3_witness :
    ((1 : Int), _detect_changes [] 1 [c3Curr]).2 =
      (⟨false, [], none⟩ : DetectResult) :=
  C3_previous_snapshot_never_updated.1 [[(1, [c3Prev])], [(1, [c3Curr])]]
    [(1, _detect_changes [] 1 [c3Curr])] (by decide)
    ((1 : Int), _detect_changes [] 1 [c3Curr]) (by decide)

/-! ## C4 — the pipeline raises on a non-periodic lesson -/

def c4Chs : List ClassHour := [⟨some 1, some "08:00:00", some "08:45:00"⟩]

/-- A club/event raw lesson: no `classHour`, hence no period number and
no times. -/
def c4Club : RawLesson :=
  { id := some "77"
    date := some "2025-09-08"
    actualLesson := some
      { lessonId := some "77"
        subject := some ⟨some "Schach-AG", some "AG"⟩
        room := some ⟨some "Aula"⟩
        teachers := some [] }
    classHour := none
    «type» := some "event"
    comment := none
    originalTeacher := none }

/-- C4 (code bug): normalization succeeds and leaves
`class_hour_number = None` for the club entry, but the final sort of
`add_free_hours_to_schedule` evaluates `int(None)` and raises
`TypeError`, so the pipeline fails exactly on the input the claim says it
must survive. -/
theorem C4_pipeline_raises :
    (_process_lesson c4Chs c4Club).class_hour_number = none ∧
    _process_schedule_data c4Chs [c4Club] =
      .ok [_process_lesson c4Chs c4Club] ∧
    schedulePipeline c4Chs [c4Club] 20339 20343 =
      .error "TypeError: int() argument must not be NoneType" :=
  ⟨by decide, rfl, rfl⟩

/-! ## C6 — per-student failure isolation -/

/-- Is the outcome an exception other than `SchulmanagerAPIError`? -/
def isOtherError {β : Type} : FetchOutcome β → Bool
  | .otherError _ => true
  | _ => false

/-- C6 (amended): when every per-student failure is a
`SchulmanagerAPIError`, the cycle succeeds and the returned data contains
exactly the entries of the students whose fetch succeeded, in order. -/
theorem C6_per_student_isolation {β : Type}
    (students : List (Int × FetchOutcome β))
    (h : ∀ s ∈ students, isOtherError s.2 = false) :
    processStudents students = .ok (students.filterMap fun s =>
      match s.2 with
      | .ok d => some (s.1, d)
      | _ => none) := by
  induction students with
  | nil => rfl
  | cons s rest ih =>
      have hs := h s (List.mem_cons_self _ _)
      have hrest := ih (fun s' h' => h s' (List.mem_cons_of_mem _ h'))
      obtain ⟨sid, o⟩ := s
      cases o with
      | ok d =>
          unfold processStudents
          rw [hrest, List.filterMap_cons]
          rfl
      | apiError e =>
          unfold processStudents
          rw [hrest, List.filterMap_cons]
      | otherError e => simp [isOtherError] at hs

def c6Outcomes : List (Int × FetchOutcome Nat) :=
  [(1, .otherError "TypeError: unorderable"), (2, .ok 7)]

/-- C6 counterexample: a per-student failure that is not a
`SchulmanagerAPIError` aborts the whole cycle, losing student 2's data,
whereas the same shape of failure raised as `SchulmanagerAPIError` is
isolated. -/
theorem C6_counterexample :
    processStudents c6Outcomes = .error "TypeError: unorderable" ∧
    processStudents
      [((1 : Int), FetchOutcome.apiError (β := Nat) "api down"),
       (2, .ok 7)] = .ok [(2, 7)] :=
  ⟨rfl, rfl⟩

/-- C6 witness: the amended theorem at a concrete cycle with one API
failure and one success. -/
theorem C6_witness :
    processStudents
      [((1 : Int), FetchOutcome.apiError (β := Nat) "auth"),
       (2, .ok 5)] = .ok [(2, 5)] :=
  C6_per_student_isolation
    [((1 : Int), FetchOutcome.apiError (β := Nat) "auth"), (2, .ok 5)]
    (by decide)

/-! ## C7 — configurable period-time fallback -/

def c7Config : ScheduleConfig := ⟨"08:00", 45, 5, 20, 10, 45⟩

/-- C7 counterexample: with base 08:00, 45-minute lessons, 5-minute short
breaks and a 20-minute break after period 2, the computed start of period
3 is 09:55, not the claimed 09:50. -/
theorem C7_counterexample :
    (_get_configurable_class_times c7Config "3").1 = "09:55" ∧
    (_get_configurable_class_times c7Config "3").1 ≠ "09:50" := by decide

/-- C7 (amended): for every configuration, period 3 starts at
base + 2 lessons + the short break after period 1 + the long break after
period 2 (the scenario's numbers give 08:00 + 45 + 5 + 45 + 20 = 09:55),
and ends one lesson later. -/
theorem C7_period3_fallback (config : ScheduleConfig) :
    (_get_configurable_class_times config "3").1 =
      calendar_format_minutes_to_time
        (calendar_parse_time_to_minutes config.school_start_time +
          2 * config.lesson_duration_minutes +
          config.short_break_minutes + config.long_break_1_minutes) ∧
    (_get_configurable_class_times config "3").2 =
      calendar_format_minutes_to_time
        (calendar_parse_time_to_minutes config.school_start_time +
          3 * config.lesson_duration_minutes +
          config.short_break_minutes + config.long_break_1_minutes) := by
  unfold _get_configurable_class_times
  rw [show pyIntOfString "3" = some 3 from by decide]
  dsimp only
  rw [if_neg (by decide)]
  rw [show ((List.range ((3 : Int) - 1).toNat).map (fun x => x + 1)) =
    [1, 2] from by decide]
  dsimp only [List.foldl]
  norm_num [breakAfter]
  constructor
  · congr 1
    ring
  · congr 1
    ring

/-! ## C9 — the period-number post-pass -/

/-- The period numbers of a processed schedule (`none` on error). -/
def periodsOf : Except String (List Lesson) → Option (List (Option Int))
  | .ok ls => some (ls.map (·.class_hour_number))
  | .error _ => none

def c9Chs : List ClassHour := [⟨some 1, some "08:00:00", some "08:45:00"⟩]

/-- A club/event raw lesson without a class hour, as reaches the
post-pass. -/
def c9Club : RawLesson :=
  { id := some "88"
    date := some "2025-09-08"
    actualLesson := some
      { lessonId := some "88"
        subject := some ⟨some "Theater-AG", some "TH"⟩
        room := some ⟨some "Aula"⟩
        teachers := some [] }
    classHour := none
    «type» := some "event"
    comment := none
    originalTeacher := none }

/-- C9 counterexample: after normalization and sorting, the lesson
without a period number still has none — the post-pass does not assign
`1, 2, 3, …` by chronological order. -/
theorem C9_counterexample :
    periodsOf (_process_schedule_data c9Chs [c9Club]) = some [none] ∧
    (some [none] : Option (List (Option Int))) ≠ some [some 1] := by
  decide

/-- C9 (amended): the post-pass `_assign_correct_hour_numbers` never
assigns or overwrites a period number — the period numbers come out
exactly as they went in — and its only effect is to fill in the missing
start/end times of lessons that carry a truthy period number and lack a
truthy start time. -/
theorem C9_postpass_preserves_periods (class_hours : List ClassHour)
    (lessons : List Lesson) :
    ((_assign_correct_hour_numbers class_hours lessons).map
        (·.class_hour_number) = lessons.map (·.class_hour_number)) ∧
    (∀ l ∈ lessons,
      (truthyNum l.class_hour_number && !truthyStr l.start_time) = false →
      l ∈ _assign_correct_hour_numbers class_hours lessons) ∧
    (∀ l' ∈ _assign_correct_hour_numbers class_hours lessons,
      ∃ l ∈ lessons,
        l'.class_hour_number = l.class_hour_number ∧
        ((truthyNum l.class_hour_number && !truthyStr l.start_time) =
            false → l' = l) ∧
        ((truthyNum l.class_hour_number && !truthyStr l.start_time) =
            true → l' =
          { l with
            start_time := some
              (_calculate_times_for_hour class_hours
                l.class_hour_number).1
            end_time := some
              (_calculate_times_for_hour class_hours
                l.class_hour_number).2 })) := by
  refine ⟨?_, ?_, ?_⟩
  · unfold _assign_correct_hour_numbers
    rw [List.map_map]
    apply List.map_congr_left
    intro l _
    by_cases h : (truthyNum l.class_hour_number &&
        !truthyStr l.start_time) = true
    · simp [Function.comp, h]
    · simp only [Bool.not_eq_true] at h
      simp [Function.comp, h]
  · intro l hl hcond
    unfold _assign_correct_hour_numbers
    apply List.mem_map.mpr
    exact ⟨l, hl, by simp [hcond]⟩
  · intro l' hl'
    rcases List.mem_map.mp hl' with ⟨l, hl, rfl⟩
    refine ⟨l, hl, ?_, ?_, ?_⟩
    · by_cases h : (truthyNum l.class_hour_number &&
          !truthyStr l.start_time) = true
      · simp [h]
      · simp only [Bool.not_eq_true] at h
        simp [h]
    · intro hcond
      simp [hcond]
    · intro hcond
      simp [hcond]

def c9w : Lesson :=
  sampleLesson "2025-09-08" none (some "15:00:00") (some "16:00:00")

/-- C9 witness: the post-pass leaves a non-periodic lesson with times
completely unchanged. -/
theorem C9_witness :
    (_assign_correct_hour_numbers c9Chs [c9w]).map (·.class_hour_number) =
      [none] ∧
    c9w ∈ _assign_correct_hour_numbers c9Chs [c9w] := by
  refine ⟨?_, (C9_postpass_preserves_periods c9Chs [c9w]).2.1 c9w
    (by decide) (by decide)⟩
  rw [(C9_postpass_preserves_periods c9Chs [c9w]).1]
  decide

/-! ## C5 — first-cycle quiet -/

theorem mem_setAdd (s : List String) (k k' : String) :
    k' ∈ setAdd s k ↔ k' ∈ s ∨ k' = k := by
  unfold setAdd
  by_cases h : k ∈ s
  · simp only [h, if_true]
    constructor
    · exact Or.inl
    · rintro (h1 | rfl)
      · exact h1
      · exact h
  · simp [h, List.mem_append]

theorem seedKeys_mono (ks : List (Option String)) :
    ∀ seen : List String, ∀ k ∈ seen, k ∈ seedKeys seen ks := by
  induction ks with
  | nil => intro seen k hk; exact hk
  | cons k0 ks ih =>
      intro seen k hk
      unfold seedKeys
      rw [List.foldl_cons]
      cases k0 with
      | none => exact ih seen k hk
      | some key => exact ih _ k ((mem_setAdd seen key k).mpr (Or.inl hk))

theorem seedKeys_mem (ks : List (Option String)) :
    ∀ seen : List String, ∀ key : String, some key ∈ ks →
      key ∈ seedKeys seen ks := by
  induction ks with
  | nil => intro seen key h; simp at h
  | cons k0 ks ih =>
      intro seen key h
      unfold seedKeys
      rw [List.foldl_cons]
      rcases List.mem_cons.mp h with heq | hmem
      · rw [← heq]
        exact seedKeys_mono ks _ key ((mem_setAdd seen key key).mpr
          (Or.inr rfl))
      · cases k0 with
        | none => exact ih seen key hmem
        | some k1 => exact ih _ key hmem

theorem seed_sets_mono (students : List (Int × StudentPayload)) :
    ∀ seenH seenG : List String,
      (∀ k ∈ seenH, k ∈ (_seed_seen_sets students seenH seenG).1) ∧
      (∀ k ∈ seenG, k ∈ (_seed_seen_sets students seenH seenG).2) := by
  induction students with
  | nil => intro seenH seenG; exact ⟨fun k hk => hk, fun k hk => hk⟩
  | cons sp students ih =>
      intro seenH seenG
      unfold _seed_seen_sets
      rw [List.foldl_cons]
      constructor
      · intro k hk
        exact (ih _ _).1 k (seedKeys_mono _ seenH k hk)
      · intro k hk
        exact (ih _ _).2 k (seedKeys_mono _ seenG k hk)

theorem seed_sets_mem (students : List (Int × StudentPayload)) :
    ∀ seenH seenG : List String, ∀ sp ∈ students, ∀ key : String,
      (some key ∈ sp.2.homeworks.map (_homework_key sp.1) →
        key ∈ (_seed_seen_sets students seenH seenG).1) ∧
      (some key ∈ sp.2.grades.map (_grade_key sp.1) →
        key ∈ (_seed_seen_sets students seenH seenG).2) := by
  induction students with
  | nil => intro seenH seenG sp hsp; simp at hsp
  | cons sp0 students ih =>
      intro seenH seenG sp hsp key
      unfold _seed_seen_sets
      rw [List.foldl_cons]
      rcases List.mem_cons.mp hsp with rfl | hmem
      · constructor
        · intro hk
          exact (seed_sets_mono students _ _).1 key
            (seedKeys_mem _ seenH key hk)
        · intro hk
          exact (seed_sets_mono students _ _).2 key
            (seedKeys_mem _ seenG key hk)
      · exact ih _ _ sp hmem key

theorem fireKeys_all_seen (e : String) (sid : Int)
    (ks : List (Option String)) :
    ∀ seen : List String, ∀ evs : List FiredEvent,
      (∀ key : String, some key ∈ ks → key ∈ seen) →
      ks.foldl
        (fun st k =>
          match k with
          | none => st
          | some key =>
              if key ∈ st.1 then st
              else (setAdd st.1 key, st.2 ++ [⟨e, sid, key⟩]))
        (seen, evs) = (seen, evs) := by
  induction ks with
  | nil => intro seen evs _; rfl
  | cons k0 ks ih =>
      intro seen evs h
      rw [List.foldl_cons]
      cases k0 with
      | none =>
          exact ih seen evs (fun key hk => h key (List.mem_cons_of_mem _ hk))
      | some key =>
          have hseen : key ∈ seen := h key (List.mem_cons_self _ _)
          simp only [hseen, if_true]
          exact ih seen evs (fun k hk => h k (List.mem_cons_of_mem _ hk))

theorem fireKeys_seen_result (e : String) (sid : Int)
    (seen : List String) (ks : List (Option String))
    (h : ∀ key : String, some key ∈ ks → key ∈ seen) :
    fireKeys e sid seen ks = (seen, []) :=
  fireKeys_all_seen e sid ks seen [] h

theorem fire_passH (students : List (Int × StudentPayload)) :
    ∀ seen : List String, ∀ evs : List FiredEvent,
      (∀ sp ∈ students, ∀ key : String,
        some key ∈ sp.2.homeworks.map (_homework_key sp.1) →
        key ∈ seen) →
      students.foldl
        (fun st sp =>
          let r := fireKeys "schulmanager_homework_new" sp.1 st.1
            (sp.2.homeworks.map (_homework_key sp.1))
          (r.1, st.2 ++ r.2))
        (seen, evs) = (seen, evs) := by
  induction students with
  | nil => intro seen evs _; rfl
  | cons sp students ih =>
      intro seen evs h
      rw [List.foldl_cons]
      have hr := fireKeys_seen_result "schulmanager_homework_new" sp.1 seen
        (sp.2.homeworks.map (_homework_key sp.1))
        (h sp (List.mem_cons_self _ _))
      simp only [hr, List.append_nil]
      exact ih seen evs (fun sp' h' => h sp' (List.mem_cons_of_mem _ h'))

theorem fire_passG (students : List (Int × StudentPayload)) :
    ∀ seen : List String, ∀ evs : List FiredEvent,
      (∀ sp ∈ students, ∀ key : String,
        some key ∈ sp.2.grades.map (_grade_key sp.1) → key ∈ seen) →
      students.foldl
        (fun st sp =>
          let r := fireKeys "schulmanager_grade_new" sp.1 st.1
            (sp.2.grades.map (_grade_key sp.1))
          (r.1, st.2 ++ r.2))
        (seen, evs) = (seen, evs) := by
  induction students with
  | nil => intro seen evs _; rfl
  | cons sp students ih =>
      intro seen evs h
      rw [List.foldl_cons]
      have hr := fireKeys_seen_result "schulmanager_grade_new" sp.1 seen
        (sp.2.grades.map (_grade_key sp.1))
        (h sp (List.mem_cons_self _ _))
      simp only [hr, List.append_nil]
      exact ih seen evs (fun sp' h' => h sp' (List.mem_cons_of_mem _ h'))

/-- C5: first-cycle quiet.  With no stored snapshot `_detect_changes`
returns the empty change result, and seeding the seen sets with a payload
followed immediately by novelty detection on the same payload fires no
homework and no grade events. -/
theorem C5_first_cycle_quiet :
    (∀ (previous_data : List (Int × List Lesson)) (sid : Int)
      (cur : List Lesson), storeLookup previous_data sid = none →
      _detect_changes previous_data sid cur = ⟨false, [], none⟩) ∧
    (∀ (students : List (Int × StudentPayload)) (seenH seenG : List String),
      (_detect_and_fire_events students
        (_seed_seen_sets students seenH seenG).1
        (_seed_seen_sets students seenH seenG).2).2 = []) := by
  constructor
  · intro pd sid cur h
    unfold _detect_changes
    rw [h]
  · intro students seenH seenG
    unfold _detect_and_fire_events
    have h1 := fire_passH students (_seed_seen_sets students seenH seenG).1
      [] (fun sp hsp key hk =>
        (seed_sets_mem students seenH seenG sp hsp key).1 hk)
    have h2 := fire_passG students (_seed_seen_sets students seenH seenG).2
      [] (fun sp hsp key hk =>
        (seed_sets_mem students seenH seenG sp hsp key).2 hk)
    simp only [h1, h2, List.append_nil]

def c5Payload : List (Int × StudentPayload) :=
  [(1, { homeworks := [⟨"2025-09-10", "Mathematik", "S. 42 Nr. 3", ""⟩]
         grades := [⟨some (.gdict (some "11") none none), "2", "2025-09-09",
           ""⟩] })]

/-- C5 witness: the empty store yields the quiet result, and
seed-then-detect on a concrete payload fires no events. -/
theorem C5_witness :
    _detect_changes [] 1 [] = ⟨false, [], none⟩ ∧
    (_detect_and_fire_events c5Payload
      (_seed_seen_sets c5Payload [] []).1
      (_seed_seen_sets c5Payload [] []).2).2 = [] :=
  ⟨C5_first_cycle_quiet.1 [] 1 [] rfl,
   C5_first_cycle_quiet.2 c5Payload [] []⟩

/-! ## C8 — current and next lesson selection -/

/-- "Starts no later than" on parsed start datetimes (true when either
side does not parse). -/
def startLEb (a b : Lesson) : Bool :=
  match _parse_lesson_datetime a, _parse_lesson_datetime b with
  | some x, some y => decide (x ≤ y)
  | _, _ => true

/-- The lesson list is sorted by parsed start datetime. -/
def pairwiseLEb : List Lesson → Bool
  | [] => true
  | a :: as => as.all (fun b => startLEb a b) && pairwiseLEb as

/-- The membership test of `_get_current_lesson`. -/
def currentPred (now : Int) (l : Lesson) : Bool :=
  match _parse_lesson_datetime l, _parse_lesson_end_datetime l with
  | some s, some e => decide (s ≤ now) && decide (now ≤ e)
  | _, _ => false

/-- The membership test of `_get_next_lesson`. -/
def nextPred (now : Int) (l : Lesson) : Bool :=
  match _parse_lesson_datetime l with
  | some s => decide (now < s)
  | none => false

theorem get_current_eq_find (lessons : List Lesson) (now : Int) :
    _get_current_lesson lessons now = lessons.find? (currentPred now) :=
  rfl

theorem get_next_eq_find (lessons : List Lesson) (now : Int) :
    _get_next_lesson lessons now = lessons.find? (nextPred now) := rfl

theorem currentPred_iff (now : Int) (l : Lesson) :
    currentPred now l = true ↔
      ∃ s e, _parse_lesson_datetime l = some s ∧
        _parse_lesson_end_datetime l = some e ∧ s ≤ now ∧ now ≤ e := by
  unfold currentPred
  cases hs : _parse_lesson_datetime l with
  | none => simp [hs]
  | some s =>
      cases he : _parse_lesson_end_datetime l with
      | none => simp [hs, he]
      | some e => simp [hs, he]

theorem nextPred_iff (now : Int) (l : Lesson) :
    nextPred now l = true ↔
      ∃ s, _parse_lesson_datetime l = some s ∧ now < s := by
  unfold nextPred
  cases hs : _parse_lesson_datetime l with
  | none => simp [hs]
  | some s => simp [hs]

/-- The first match of `find?` under a sorted list has the minimal start
among all entries starting after `now`. -/
theorem next_lesson_min (lessons : List Lesson) (now : Int) :
    ∀ l, lessons.find? (nextPred now) = some l →
      pairwiseLEb lessons = true →
      ∀ l' ∈ lessons, ∀ s s', _parse_lesson_datetime l = some s →
        _parse_lesson_datetime l' = some s' → now < s' → s ≤ s' := by
  induction lessons with
  | nil => intro l h; simp at h
  | cons a as ih =>
      intro l hfind hpw l' hl' s s' hs hs' hnow
      have hpw' := hpw
      unfold pairwiseLEb at hpw'
      rw [Bool.and_eq_true] at hpw'
      have hpw1 : as.all (fun b => startLEb a b) = true := hpw'.1
      have hpw2 : pairwiseLEb as = true := hpw'.2
      rw [List.find?_cons] at hfind
      cases hpa : nextPred now a with
      | true =>
          rw [hpa] at hfind
          injection hfind with hfind
          subst hfind
          rcases List.mem_cons.mp hl' with rfl | hmem
          · rw [hs] at hs'
            injection hs' with hs'
            omega
          · have hab := List.all_eq_true.mp hpw1 l' hmem
            unfold startLEb at hab
            rw [hs, hs'] at hab
            exact of_decide_eq_true hab
      | false =>
          rw [hpa] at hfind
          rcases List.mem_cons.mp hl' with rfl | hmem
          · unfold nextPred at hpa
            rw [hs'] at hpa
            simp [hnow] at hpa
          · exact ih l hfind hpw2 l' hmem s s' hs hs' hnow

/-- C8 (amended): the derived current lesson is the first entry whose
**closed** interval `[start, end]` contains `now` (so an entry ending
exactly at `now` is still current), `none` exactly when no entry
qualifies; the derived next lesson is an entry with start strictly after
`now` — the earliest such when the list is sorted by start — and `none`
exactly when no entry starts after `now`. -/
theorem C8_current_next_selection (lessons : List Lesson) (now : Int) :
    (∀ l, _get_current_lesson lessons now = some l →
      l ∈ lessons ∧ ∃ s e, _parse_lesson_datetime l = some s ∧
        _parse_lesson_end_datetime l = some e ∧ s ≤ now ∧ now ≤ e) ∧
    (_get_current_lesson lessons now = none ↔
      ∀ l ∈ lessons, ∀ s e, _parse_lesson_datetime l = some s →
        _parse_lesson_end_datetime l = some e → ¬(s ≤ now ∧ now ≤ e)) ∧
    (∀ l, _get_next_lesson lessons now = some l →
      l ∈ lessons ∧ ∃ s, _parse_lesson_datetime l = some s ∧ now < s ∧
        (pairwiseLEb lessons = true →
          ∀ l' ∈ lessons, ∀ s', _parse_lesson_datetime l' = some s' →
            now < s' → s ≤ s')) ∧
    (_get_next_lesson lessons now = none ↔
      ∀ l ∈ lessons, ∀ s, _parse_lesson_datetime l = some s →
        ¬(now < s)) := by
  refine ⟨?_, ?_, ?_, ?_⟩
  · intro l hl
    rw [get_current_eq_find] at hl
    refine ⟨List.mem_of_find?_eq_some hl, ?_⟩
    exact (currentPred_iff now l).mp (List.find?_some hl)
  · rw [get_current_eq_find, List.find?_eq_none]
    constructor
    · intro h l hl s e hs he hrange
      exact h l hl ((currentPred_iff now l).mpr
        ⟨s, e, hs, he, hrange.1, hrange.2⟩)
    · intro h l hl hpred
      rcases (currentPred_iff now l).mp hpred with ⟨s, e, hs, he, h1, h2⟩
      exact h l hl s e hs he ⟨h1, h2⟩
  · intro l hl
    rw [get_next_eq_find] at hl
    refine ⟨List.mem_of_find?_eq_some hl, ?_⟩
    rcases (nextPred_iff now l).mp (List.find?_some hl) with ⟨s, hs, hnow⟩
    refine ⟨s, hs, hnow, ?_⟩
    intro hpw l' hl' s' hs' hnow'
    exact next_lesson_min lessons now l hl hpw l' hl' s s' hs hs' hnow'
  · rw [get_next_eq_find, List.find?_eq_none]
    constructor
    · intro h l hl s hs hnow
      exact h l hl ((nextPred_iff now l).mpr ⟨s, hs, hnow⟩)
    · intro h l hl hpred
      rcases (nextPred_iff now l).mp hpred with ⟨s, hs, hnow⟩
      exact h l hl s hs hnow

def c8Lesson : Lesson :=
  sampleLesson "2025-09-08" (some 1) (some "08:00:00") (some "08:45:00")

/-- C8 counterexample: at `now` equal to the lesson's end datetime
(2025-09-08 08:45:00), `_get_current_lesson` still returns the lesson —
the interval is closed, not half-open as claimed. -/
theorem C8_counterexample :
    _parse_lesson_end_datetime c8Lesson = some 1757321100 ∧
    _get_current_lesson [c8Lesson] 1757321100 = some c8Lesson := by decide

def c8B : Lesson :=
  sampleLesson "2025-09-08" (some 2) (some "08:48:00") (some "09:33:00")

/-- C8 witness: at 08:46 the next lesson of the sorted two-lesson day is
the 08:48 lesson, whose start is minimal among the entries after
`now`. -/
theorem C8_witness :
    _get_next_lesson [c8Lesson, c8B] 1757321160 = some c8B ∧
    ∃ s, _parse_lesson_datetime c8B = some s ∧ 1757321160 < s ∧
      ∀ l' ∈ [c8Lesson, c8B], ∀ s',
        _parse_lesson_datetime l' = some s' → 1757321160 < s' →
        s ≤ s' := by
  have h := (C8_current_next_selection [c8Lesson, c8B] 1757321160).2.2.1
    c8B (by decide)
  rcases h.2 with ⟨s, hs, hnow, hmin⟩
  exact ⟨by decide, s, hs, hnow, hmin (by decide)⟩

end SMO
